import Mathlib

/-!
# Azure workload-identity bootstrap for Terraform Cloud

A shallow embedding of `bootstrap/setup-azure-workload-identity/main.go`:
the configuration data model, `constructSubjectClaim`, `validateConfig`, and
`setupAzureWorkloadIdentity` with the external tool (`az`, temp files) as an
oracle whose every call and answer is recorded in a trace.

Go strings are embedded as Lean `String`s; `fmt.Sprintf` with `%s` verbs is
string concatenation.
-/

namespace WorkloadIdentity

/-! ## Data model (main.go, lines 21-59) -/

/-- Terraform Cloud part of the configuration (`TerraformCloudConfig`). -/
structure TerraformCloudConfig where
  Organization : String
  Workspace : String
  Workspaces : List String
  Project : String
  deriving DecidableEq, Repr

/-- One role assignment request (`RoleAssignment`). -/
structure RoleAssignment where
  Name : String
  Scope : String
  deriving DecidableEq, Repr

/-- Azure part of the configuration (`AzureConfig`). -/
structure AzureConfig where
  SubscriptionID : String
  TenantID : String
  Role : String
  Scope : String
  Roles : List RoleAssignment
  deriving DecidableEq, Repr

/-- Application part of the configuration (`ApplicationConfig`). -/
structure ApplicationConfig where
  Name : String
  Audience : String
  deriving DecidableEq, Repr

/-- The configuration (`Config`). -/
structure Config where
  TerraformCloud : TerraformCloudConfig
  Azure : AzureConfig
  Application : ApplicationConfig
  deriving DecidableEq, Repr

/-- The created Azure resources (`AzureResources`). -/
structure AzureResources where
  ApplicationID : String
  SubscriptionID : String
  TenantID : String
  Subject : String
  deriving DecidableEq, Repr

/-! ## Library functions of the Go `strings` package used by the source -/

/-- Go `unicode.IsSpace`: the Latin-1 spaces and the code points with the
White_Space property. -/
def isSpace (c : Char) : Bool :=
  let n := c.toNat
  (9 ≤ n && n ≤ 13) || n == 32 || n == 0x85 || n == 0xA0 || n == 0x1680 ||
    (0x2000 ≤ n && n ≤ 0x200a) || n == 0x2028 || n == 0x2029 || n == 0x202f ||
    n == 0x205f || n == 0x3000

/-- Go `strings.TrimSpace`: drop leading and trailing white space. -/
def TrimSpace (s : String) : String :=
  ⟨(s.data.dropWhile isSpace).rdropWhile isSpace⟩

/-- The line feed character, the separator of `strings.Split(s, "\n")`. -/
def newline : Char := Char.ofNat 10

/-- Splitting a character list at every line feed; the result is never empty. -/
def splitLines : List Char → List (List Char)
  | [] => [[]]
  | c :: cs =>
    if c = newline then [] :: splitLines cs
    else
      match splitLines cs with
      | [] => [[c]]
      | l :: ls => (c :: l) :: ls

/-- Go `strings.Split(s, "\n")`. -/
def SplitLines (s : String) : List String :=
  (splitLines s.data).map String.mk

/-- Go `strings.HasPrefix(s, p)`. -/
def HasPrefix (s p : String) : Bool :=
  p.data.isPrefixOf s.data

/-! ## constructSubjectClaim (main.go, lines 410-428) -/

/-- The subject claim of a Terraform Cloud run, `constructSubjectClaim`. -/
def constructSubjectClaim (organization project workspace runPhase : String) : String :=
  if project ≠ "" then
    if workspace = "" ∨ workspace = "*" then
      "organization:" ++ organization ++ ":project:" ++ project ++ ":workspace:*:run_phase:"
        ++ runPhase
    else
      "organization:" ++ organization ++ ":project:" ++ project ++ ":workspace:" ++ workspace
        ++ ":run_phase:" ++ runPhase
  else if workspace = "" ∨ workspace = "*" then
    "organization:" ++ organization ++ ":workspace:*:run_phase:" ++ runPhase
  else
    "organization:" ++ organization ++ ":workspace:" ++ workspace ++ ":run_phase:" ++ runPhase

/-! ## validateConfig (main.go, lines 167-189) -/

/-- The function `validateConfig`: the configuration after the call (the source
mutates it through a pointer) and the returned error, if any. -/
def validateConfig (config : Config) : Config × Option String :=
  if config.TerraformCloud.Organization = "" then
    (config, some "terraform_cloud.organization is required")
  else
    let config :=
      if config.TerraformCloud.Workspace = "" then
        { config with TerraformCloud := { config.TerraformCloud with Workspace := "*" } }
      else config
    let config :=
      if config.Application.Audience = "" then
        { config with
          Application := { config.Application with Audience := "api://AzureADTokenExchange" } }
      else config
    let config :=
      if config.Application.Name = "" then
        { config with
          Application :=
            { config.Application with
              Name := "terraform-cloud-" ++ config.TerraformCloud.Organization } }
      else config
    let config :=
      if config.Azure.Role = "" ∧ config.Azure.Roles.length = 0 then
        { config with Azure := { config.Azure with Role := "Contributor" } }
      else config
    (config, none)

/-! ## The external world

Every interaction of `setupAzureWorkloadIdentity` with its environment (the
`az` command line tool, the temporary files, the propagation wait) is an
`Event` that records the request together with the answer. The environment
is an oracle whose answers may depend on everything that happened before. -/

/-- The JSON document of one federated credential (the map built at main.go
lines 328-334), represented by its fields. -/
structure FederatedCred where
  name : String
  issuer : String
  subject : String
  audiences : List String
  description : String
  deriving DecidableEq, Repr

/-- One interaction with the environment, with its outcome. -/
inductive Event where
  /-- Running `az --version` in `checkAzureCLI`. -/
  | azVersion (err : Option String)
  /-- Running `az args...` in `runAzCommand`: combined output and error. -/
  | az (args : List String) (output : String) (err : Option String)
  /-- The call `time.Sleep`, in seconds. -/
  | sleep (seconds : Nat)
  /-- The call `os.CreateTemp("", "federated-cred-*.json")`: path and error. -/
  | createTemp (path : String) (err : Option String)
  /-- Writing the credential document to the temp file. -/
  | write (path : String) (cred : FederatedCred) (err : Option String)
  /-- A deferred `os.Remove(path)`. -/
  | remove (path : String)
  deriving DecidableEq, Repr

/-- The environment: each answer is a function of the history of events. -/
structure World where
  azVersion : List Event → Option String
  az : List Event → List String → String × Option String
  createTemp : List Event → String × Option String
  write : List Event → String → FederatedCred → Option String

/-- A piece of the run: given the environment and the history, a result (or the
error that aborts the run) and the extended history. -/
def Proc (α : Type) : Type := World → List Event → Except String α × List Event

/-- Returning a value without any interaction. -/
def Proc.pure {α : Type} (a : α) : Proc α := fun _ tr => (.ok a, tr)

/-- Sequencing; an error aborts everything that follows (`return nil, err`). -/
def Proc.bind {α β : Type} (m : Proc α) (f : α → Proc β) : Proc β := fun w tr =>
  match m w tr with
  | (.ok a, tr1) => f a w tr1
  | (.error e, tr1) => (.error e, tr1)

/-- Aborting the run with an error (`return nil, fmt.Errorf(...)`). -/
def Proc.fail {α : Type} (msg : String) : Proc α := fun _ tr => (.error msg, tr)

instance : Monad Proc where
  pure := Proc.pure
  bind := Proc.bind

/-- The function `checkAzureCLI` (main.go, lines 430-436). -/
def checkAzureCLI : Proc Unit := fun w tr =>
  let err := w.azVersion tr
  let tr := tr ++ [Event.azVersion err]
  match err with
  | some _ =>
    (.error "Azure CLI not found. Please install from https://aka.ms/azure-cli", tr)
  | none => (.ok (), tr)

/-- What `runAzCommand` returns for the combined output and the error of the
command (main.go, lines 440-444). -/
def azResult (output : String) (err : Option String) : String × Option String :=
  match err with
  | some e => ("", some ("command failed: " ++ e ++ "\nOutput: " ++ output))
  | none => (output, none)

/-- The function `runAzCommand` (main.go, lines 438-445); the Go pair
`(string, error)` is returned as a value, the caller decides what an error
means. -/
def runAzCommand (args : List String) : Proc (String × Option String) := fun w tr =>
  let r := w.az tr args
  (.ok (azResult r.1 r.2), tr ++ [Event.az args r.1 r.2])

/-- The call `time.Sleep(5 * time.Second)`. -/
def sleep (seconds : Nat) : Proc Unit := fun _ tr => (.ok (), tr ++ [Event.sleep seconds])

/-- The call `os.CreateTemp`, returning the Go pair (path of the file, error). -/
def createTemp : Proc (String × Option String) := fun w tr =>
  let r := w.createTemp tr
  (.ok r, tr ++ [Event.createTemp r.1 r.2])

/-- The call `tmpFile.Write(credJSON)`, returning the Go error. -/
def writeTemp (path : String) (cred : FederatedCred) : Proc (Option String) := fun w tr =>
  let err := w.write tr path cred
  (.ok err, tr ++ [Event.write path cred err])

/-! ## setupAzureWorkloadIdentity (main.go, lines 191-408) -/

/-- Lines 203-212: the subscription id, queried when not configured. -/
def resolveSubscription (config : Config) : Proc Config := do
  if config.Azure.SubscriptionID = "" then
    let r ← runAzCommand ["account", "show", "--query", "id", "-o", "tsv"]
    match r.2 with
    | some err => Proc.fail ("failed to get subscription: " ++ err)
    | none => pure { config with Azure := { config.Azure with SubscriptionID := TrimSpace r.1 } }
  else pure config

/-- Lines 214-221: the tenant id, queried when not configured. -/
def resolveTenant (config : Config) : Proc Config := do
  if config.Azure.TenantID = "" then
    let r ← runAzCommand ["account", "show", "--query", "tenantId", "-o", "tsv"]
    match r.2 with
    | some err => Proc.fail ("failed to get tenant: " ++ err)
    | none => pure { config with Azure := { config.Azure with TenantID := TrimSpace r.1 } }
  else pure config

/-- Lines 235-257: find the application by display name, else create it. -/
def ensureApplication (config : Config) : Proc String := do
  let r ← runAzCommand ["ad", "app", "list", "--display-name", config.Application.Name,
    "--query", "[0].appId", "-o", "tsv"]
  let appID := TrimSpace r.1
  if appID = "" ∨ r.2 ≠ none then
    let r ← runAzCommand ["ad", "app", "create", "--display-name", config.Application.Name,
      "--query", "appId", "-o", "tsv"]
    match r.2 with
    | some err => Proc.fail ("failed to create application: " ++ err)
    | none => pure (TrimSpace r.1)
  else pure appID

/-- Lines 259-277: find the service principal of the application, else create
it. -/
def ensureServicePrincipal (applicationID : String) : Proc Unit := do
  let r ← runAzCommand ["ad", "sp", "list", "--filter",
    "appId eq \'" ++ applicationID ++ "\'", "--query", "[0].id", "-o", "tsv"]
  let spID := TrimSpace r.1
  if spID = "" ∨ r.2 ≠ none then
    let r ← runAzCommand ["ad", "sp", "create", "--id", applicationID]
    match r.2 with
    | some err => Proc.fail ("failed to create service principal: " ++ err)
    | none => pure ()
  else pure ()

/-- Lines 284-290: the workspaces credentials are created for. -/
def resolveWorkspaces (config : Config) : List String :=
  let workspaces := config.TerraformCloud.Workspaces
  let workspaces :=
    if workspaces.length = 0 ∧ config.TerraformCloud.Workspace ≠ "" then
      [config.TerraformCloud.Workspace]
    else workspaces
  if workspaces.length = 0 then ["*"] else workspaces

/-- The name stem this tool gives its federated credentials. -/
def credentialStem : String := "terraform-cloud-federated-credential"

/-- Lines 301-308: the loop over the listed credential names; the outcome of a
delete call is discarded (`_, _ = runAzCommand(...)`). -/
def deleteCredentials (applicationID : String) : List String → Proc Unit
  | [] => pure ()
  | credName :: rest => do
    if HasPrefix credName credentialStem then
      let _ ← runAzCommand ["ad", "app", "federated-credential", "delete",
        "--id", applicationID, "--federated-credential-id", credName]
      deleteCredentials applicationID rest
    else deleteCredentials applicationID rest

/-- Lines 295-309: clean up the credentials of previous runs. -/
def cleanupCredentials (applicationID : String) : Proc Unit := do
  let r ← runAzCommand ["ad", "app", "federated-credential", "list",
    "--id", applicationID, "--query", "[].name", "-o", "tsv"]
  if r.2 = none ∧ TrimSpace r.1 ≠ "" then
    deleteCredentials applicationID (SplitLines (TrimSpace r.1))
  else pure ()

/-- Lines 319-322: the name of the credential of workspace number `i` and a
run phase, `total` being the number of workspaces. -/
def credentialName (total i : Nat) (runPhase : String) : String :=
  if total = 1 then credentialStem ++ "-" ++ runPhase
  else credentialStem ++ "-" ++ runPhase ++ "-" ++ toString i

/-- Lines 318-334: the credential document of one workspace and run phase. -/
def federatedCred (config : Config) (total i : Nat) (workspace runPhase : String) :
    FederatedCred :=
  { name := credentialName total i runPhase
    issuer := "https://app.terraform.io"
    subject := constructSubjectClaim config.TerraformCloud.Organization
      config.TerraformCloud.Project workspace runPhase
    audiences := [config.Application.Audience]
    description :=
      "Federated credential for TFC workspace: " ++ workspace ++ " (" ++ runPhase ++ ")" }

/-- Lines 318-362: the body of the inner loop, one workspace and run phase. -/
def createCredential (config : Config) (total i : Nat) (workspace runPhase : String)
    (resources : AzureResources) : Proc AzureResources := do
  let cred := federatedCred config total i workspace runPhase
  let tmp ← createTemp
  match tmp.2 with
  | some err => Proc.fail ("failed to create temp file: " ++ err)
  | none =>
    let werr ← writeTemp tmp.1 cred
    match werr with
    | some err => Proc.fail ("failed to write temp file: " ++ err)
    | none =>
      let r ← runAzCommand ["ad", "app", "federated-credential", "create",
        "--id", resources.ApplicationID, "--parameters", "@" ++ tmp.1]
      match r.2 with
      | some err =>
        Proc.fail ("failed to create federated credential for " ++ workspace ++ " (" ++
          runPhase ++ "): " ++ err)
      | none =>
        if i = 0 ∧ runPhase = "plan" then pure { resources with Subject := cred.subject }
        else pure resources

/-- Lines 316-363: the inner loop over the run phases. -/
def createPhases (config : Config) (total i : Nat) (workspace : String) :
    List String → AzureResources → Proc AzureResources
  | [], resources => pure resources
  | runPhase :: rest, resources => do
    let resources ← createCredential config total i workspace runPhase resources
    createPhases config total i workspace rest resources

/-- The two run phases (line 316). -/
def runPhases : List String := ["plan", "apply"]

/-- Lines 312-364: the outer loop over the workspaces, from index `i` on. -/
def createWorkspaces (config : Config) (total : Nat) :
    Nat → List String → AzureResources → Proc AzureResources
  | _, [], resources => pure resources
  | i, workspace :: rest, resources => do
    let resources ← createPhases config total i workspace runPhases resources
    createWorkspaces config total (i + 1) rest resources

/-- Lines 368-371: the role assignments to make. -/
def resolveRoles (config : Config) : List RoleAssignment :=
  if config.Azure.Roles.length = 0 ∧ config.Azure.Role ≠ "" then
    [{ Name := config.Azure.Role, Scope := config.Azure.Scope }]
  else config.Azure.Roles

/-- Lines 374-377: the scope of a role assignment, the subscription by
default. -/
def roleScope (config : Config) (role : RoleAssignment) : String :=
  if role.Scope = "" then "/subscriptions/" ++ config.Azure.SubscriptionID else role.Scope

/-- Lines 374-404: the body of the role loop. A failed creation is only a
warning. -/
def assignRole (config : Config) (applicationID : String) (role : RoleAssignment) :
    Proc Unit := do
  let scope := roleScope config role
  let r ← runAzCommand ["role", "assignment", "list", "--assignee", applicationID,
    "--role", role.Name, "--scope", scope, "--query", "[0].id", "-o", "tsv"]
  let existingRole := TrimSpace r.1
  if existingRole ≠ "" then pure ()
  else
    let _ ← runAzCommand ["role", "assignment", "create", "--assignee", applicationID,
      "--role", role.Name, "--scope", scope]
    pure ()

/-- Lines 373-405: the role loop. -/
def assignRoles (config : Config) (applicationID : String) : List RoleAssignment → Proc Unit
  | [] => pure ()
  | role :: rest => do
    assignRole config applicationID role
    assignRoles config applicationID rest

/-- The body of `setupAzureWorkloadIdentity`, stage after stage. -/
def setupSteps (config : Config) : Proc AzureResources := do
  let resources : AzureResources :=
    { ApplicationID := "", SubscriptionID := "", TenantID := "", Subject := "" }
  checkAzureCLI
  let config ← resolveSubscription config
  let resources := { resources with SubscriptionID := config.Azure.SubscriptionID }
  let config ← resolveTenant config
  let resources := { resources with TenantID := config.Azure.TenantID }
  let appID ← ensureApplication config
  let resources := { resources with ApplicationID := appID }
  ensureServicePrincipal resources.ApplicationID
  sleep 5
  let workspaces := resolveWorkspaces config
  cleanupCredentials resources.ApplicationID
  let resources ← createWorkspaces config workspaces.length 0 workspaces resources
  assignRoles config resources.ApplicationID (resolveRoles config)
  pure resources

/-- The temp files whose removal was deferred (`defer os.Remove(tmpPath)` after
each successful `os.CreateTemp`), in the order of their creation. -/
def tempPaths : List Event → List String
  | [] => []
  | Event.createTemp path none :: rest => path :: tempPaths rest
  | _ :: rest => tempPaths rest

/-- What a run leaves behind: the returned value and every interaction. -/
structure Run where
  ret : Except String AzureResources
  trace : List Event

/-- The function `setupAzureWorkloadIdentity`: the steps, then the deferred
removals in reverse order of registration. -/
def setupAzureWorkloadIdentity (w : World) (config : Config) : Run :=
  let r := setupSteps config w []
  { ret := r.1, trace := r.2 ++ ((tempPaths r.2).reverse.map Event.remove) }

/-! ## Definitions used to state the properties -/

/-- Joining fields with a colon between neighbours. -/
def joinColon : List (List Char) → List Char
  | [] => []
  | [a] => a
  | a :: b :: rest => a ++ ':' :: joinColon (b :: rest)

/-- The workspace component of a subject claim: the wildcard for the empty
name. -/
def workspaceOrAll (workspace : String) : String :=
  if workspace = "" then "*" else workspace

/-- The colon-separated fields of a subject claim. -/
def claimFields (organization project workspace runPhase : String) : List (List Char) :=
  if project ≠ "" then
    ["organization".data, organization.data, "project".data, project.data,
      "workspace".data, (workspaceOrAll workspace).data, "run_phase".data, runPhase.data]
  else
    ["organization".data, organization.data,
      "workspace".data, (workspaceOrAll workspace).data, "run_phase".data, runPhase.data]

/-! ### Observations on the trace of a run -/

/-- Whether the interaction reported an error. -/
def Event.failed : Event → Bool
  | Event.azVersion err => err.isSome
  | Event.az _ _ err => err.isSome
  | Event.sleep _ => false
  | Event.createTemp _ err => err.isSome
  | Event.write _ _ err => err.isSome
  | Event.remove _ => false

/-- The stage a command of `az` belongs to, read off its leading words. -/
def azStage (args : List String) : Nat :=
  if args.take 1 = ["account"] then 2
  else if args.take 3 = ["ad", "app", "list"] then 3
  else if args.take 3 = ["ad", "app", "create"] then 3
  else if args.take 2 = ["ad", "sp"] then 4
  else if args.take 4 = ["ad", "app", "federated-credential", "list"] then 6
  else if args.take 4 = ["ad", "app", "federated-credential", "delete"] then 6
  else if args.take 4 = ["ad", "app", "federated-credential", "create"] then 7
  else if args.take 1 = ["role"] then 8
  else 0

/-- The stage of `setupAzureWorkloadIdentity` an interaction belongs to:
1 preflight, 2 context resolution, 3 application, 4 service principal,
5 propagation delay, 6 credential cleanup, 7 credential creation, 8 role
assignment, 9 release of the temp files; 0 for any other command. -/
def Event.stage : Event → Nat
  | Event.azVersion _ => 1
  | Event.az args _ _ => azStage args
  | Event.sleep _ => 5
  | Event.createTemp _ _ => 7
  | Event.write _ _ _ => 7
  | Event.remove _ => 9

/-- The credential name of a federated-credential delete call. -/
def deletedCredential : Event → Option String
  | Event.az [a0, a1, a2, a3, a4, _, a6, credName] _ _ =>
    if [a0, a1, a2, a3, a4, a6]
        = ["ad", "app", "federated-credential", "delete", "--id", "--federated-credential-id"]
    then some credName else none
  | _ => none

/-- The `--parameters` argument and the error of a federated-credential create
call. -/
def creationCall : Event → Option (String × Option String)
  | Event.az [a0, a1, a2, a3, a4, _, a6, parameters] _ err =>
    if [a0, a1, a2, a3, a4, a6]
        = ["ad", "app", "federated-credential", "create", "--id", "--parameters"]
    then some (parameters, err) else none
  | _ => none

/-- The path and the document of a successful write to a temp file. -/
def writtenDocument : Event → Option (String × FederatedCred)
  | Event.write path cred none => some (path, cred)
  | _ => none

/-- The credentials a run created: the k-th successfully written document,
when the k-th create call was handed the file of that document and
succeeded. -/
def createdCredentials (trace : List Event) : List FederatedCred :=
  (List.zip (trace.filterMap writtenDocument) (trace.filterMap creationCall)).filterMap
    (fun x => if x.2.1 = "@" ++ x.1.1 ∧ x.2.2 = none then some x.1.2 else none)

/-- The (principal, role, scope) triple of a role-assignment create call. -/
def roleCreation : Event → Option (String × String × String)
  | Event.az [a0, a1, a2, a3, principal, a5, role, a7, scope] _ _ =>
    if [a0, a1, a2, a3, a5, a7] = ["role", "assignment", "create", "--assignee", "--role", "--scope"]
    then some (principal, role, scope) else none
  | _ => none

/-- The (principal, role, scope) triple of an existing-assignment lookup. -/
def roleLookup : Event → Option (String × String × String)
  | Event.az [a0, a1, a2, a3, principal, a5, role, a7, scope, a9, a10, a11, a12] _ _ =>
    if [a0, a1, a2, a3, a5, a7, a9, a10, a11, a12]
        = ["role", "assignment", "list", "--assignee", "--role", "--scope", "--query", "[0].id",
          "-o", "tsv"]
    then some (principal, role, scope) else none
  | _ => none

/-- The credentials a run is to create, one per list position and run phase:
the workspaces are numbered from `i` on. -/
def expectedCredentials (config : Config) (total : Nat) (i : Nat) (workspaces : List String) :
    List FederatedCred :=
  (workspaces.enumFrom i).flatMap
    (fun iw => runPhases.map (fun runPhase => federatedCred config total iw.1 iw.2 runPhase))

/-- Whether a credential document is bound to a workspace and run phase: its
subject is the claim of that pair and its description names the pair. -/
def boundTo (config : Config) (workspace runPhase : String) (cred : FederatedCred) : Bool :=
  cred.subject = constructSubjectClaim config.TerraformCloud.Organization
      config.TerraformCloud.Project workspace runPhase ∧
    cred.description =
      "Federated credential for TFC workspace: " ++ workspace ++ " (" ++ runPhase ++ ")"

/-- The (principal, role, scope) triples of the role assignments to make, for
the resolved subscription and the application of the result. -/
def resolvedTriples (config : Config) (resources : AzureResources) :
    List (String × String × String) :=
  (resolveRoles config).map (fun role =>
    (resources.ApplicationID, role.Name,
      if role.Scope = "" then "/subscriptions/" ++ resources.SubscriptionID else role.Scope))

/-- Names one per line: the names joined by line feeds. -/
def joinLines : List String → String
  | [] => ""
  | [name] => name
  | name :: rest => name ++ "\n" ++ joinLines rest

/-- A name as a listing prints it: not empty, on one line, no white space at
either end. -/
def cleanName (name : String) : Prop :=
  name ≠ "" ∧ newline ∉ name.data ∧
    (∀ c, name.data.head? = some c → isSpace c = false) ∧
    (∀ c, name.data.getLast? = some c → isSpace c = false)

/-- Stages 1 to 5 of `setupAzureWorkloadIdentity`: the resolved configuration
and the resources known before the credentials are touched. -/
def prepare (config : Config) : Proc (Config × AzureResources) := do
  let resources : AzureResources :=
    { ApplicationID := "", SubscriptionID := "", TenantID := "", Subject := "" }
  checkAzureCLI
  let config ← resolveSubscription config
  let resources := { resources with SubscriptionID := config.Azure.SubscriptionID }
  let config ← resolveTenant config
  let resources := { resources with TenantID := config.Azure.TenantID }
  let appID ← ensureApplication config
  let resources := { resources with ApplicationID := appID }
  ensureServicePrincipal resources.ApplicationID
  sleep 5
  pure (config, resources)

/-- Stages 6 to 8 of `setupAzureWorkloadIdentity`. -/
def finish (config : Config) (resources : AzureResources) : Proc AzureResources := do
  let workspaces := resolveWorkspaces config
  cleanupCredentials resources.ApplicationID
  let resources ← createWorkspaces config workspaces.length 0 workspaces resources
  assignRoles config resources.ApplicationID (resolveRoles config)
  pure resources

/-- What a piece of the run adds to the history, and with which result. -/
def Grows {α : Type} (m : Proc α) (Q : List Event → Except String α → Prop) : Prop :=
  ∀ w tr, ∃ new, (m w tr).2 = tr ++ new ∧ Q new (m w tr).1

/-- Whether a result is an error. -/
def isError {α : Type} : Except String α → Bool
  | .error _ => true
  | .ok _ => false

/-- The calls whose failure is fatal in stages 2 to 4: the two account queries
and the creation of the application and of the service principal. -/
def fatalCall : Event → Bool
  | Event.az args _ _ =>
    args.take 2 = ["account", "show"] ∨ args.take 3 = ["ad", "app", "create"] ∨
      args.take 3 = ["ad", "sp", "create"]
  | _ => false

/-- The bookkeeping every piece of the run respects, `failed` telling whether
the piece aborted the run: the added events satisfy `P`; an abort comes with a
failed interaction outside the role stage; a failed fatal call aborts the run
and is the last thing that happens. -/
def Invariant (P : Event → Prop) (new : List Event) (failed : Bool) : Prop :=
  (∀ e ∈ new, P e) ∧
    (failed = true → ∃ e ∈ new, e.failed = true ∧ e.stage ≠ 8) ∧
    (∀ e ∈ new, fatalCall e = true → e.failed = true →
      failed = true ∧ new.getLast? = some e)

/-- A piece of the run that respects the bookkeeping. -/
def Keeps {α : Type} (P : Event → Prop) (m : Proc α) : Prop :=
  Grows m (fun new r => Invariant P new (isError r))

/-- The events of the delete loop for the names it deletes: one delete call
per name, in order, with any outcome. -/
def DeleteRun (applicationID : String) (names : List String) (events : List Event) : Prop :=
  List.Forall₂
    (fun credName e => ∃ out err, e = Event.az ["ad", "app", "federated-credential", "delete",
      "--id", applicationID, "--federated-credential-id", credName] out err)
    names events

/-- The events of the cleanup stage: the listing call, then the delete calls
for the lines of the trimmed listing that carry the name stem (none when the
listing failed). -/
def CleanupRun (applicationID : String) (events : List Event) : Prop :=
  ∃ out err dels,
    events = Event.az ["ad", "app", "federated-credential", "list", "--id", applicationID,
      "--query", "[].name", "-o", "tsv"] out err :: dels ∧
    DeleteRun applicationID
      (if err = none then
        (SplitLines (TrimSpace out)).filter (fun credName => HasPrefix credName credentialStem)
      else []) dels

/-- The events of a creation stage in which everything succeeds: per
credential a temp file, the write of the document and the create call on that
file. -/
def CreationRun (applicationID : String) : List FederatedCred → List Event → Prop
  | [], events => events = []
  | cred :: creds, events =>
    ∃ path out rest,
      events = Event.createTemp path none :: Event.write path cred none ::
        Event.az ["ad", "app", "federated-credential", "create", "--id", applicationID,
          "--parameters", "@" ++ path] out none :: rest ∧
      CreationRun applicationID creds rest

/-- The events of the role stage: per role the lookup, and the create call
exactly when the lookup reported nothing (an empty answer or a failure). -/
def RoleRun (config : Config) (applicationID : String) :
    List RoleAssignment → List Event → Prop
  | [], events => events = []
  | role :: roles, events =>
    ∃ out err rest,
      events = Event.az ["role", "assignment", "list", "--assignee", applicationID,
        "--role", role.Name, "--scope", roleScope config role, "--query", "[0].id",
        "-o", "tsv"] out err :: rest ∧
      ((TrimSpace (azResult out err).1 ≠ "" ∧ RoleRun config applicationID roles rest) ∨
        (TrimSpace (azResult out err).1 = "" ∧ ∃ out2 err2 rest2,
          rest = Event.az ["role", "assignment", "create", "--assignee", applicationID,
            "--role", role.Name, "--scope", roleScope config role] out2 err2 :: rest2 ∧
          RoleRun config applicationID roles rest2))

/-- The (principal, role, scope) triple of a role assignment. -/
def roleTriple (config : Config) (applicationID : String) (role : RoleAssignment) :
    String × String × String :=
  (applicationID, role.Name, roleScope config role)

/-- The subject recorded in the result after the creation loop has run
from index `i` over `workspaces`: the plan claim of the workspace at index 0
(main.go, lines 360-362). -/
def subjectFrom (config : Config) (i : Nat) (workspaces : List String) (subject : String) :
    String :=
  match workspaces with
  | [] => subject
  | workspace :: _ =>
    if i = 0 then
      constructSubjectClaim config.TerraformCloud.Organization config.TerraformCloud.Project
        workspace "plan"
    else subject

/-- The configuration with the subscription and tenant the run resolved. -/
def withContext (config : Config) (subscriptionID tenantID : String) : Config :=
  { config with
    Azure := { config.Azure with SubscriptionID := subscriptionID, TenantID := tenantID } }

/-- Where an identifier of the result comes from: the configured value when
there is one, else the trimmed output of the successful account query in the
events. -/
def resolvedFrom (configured : String) (query : String) (value : String)
    (events : List Event) : Prop :=
  (configured ≠ "" ∧ value = configured) ∨
    (configured = "" ∧ ∃ out,
      Event.az ["account", "show", "--query", query, "-o", "tsv"] out none ∈ events ∧
      value = TrimSpace out)

/-- Where the application id comes from: the trimmed output of the successful
application list call or of the successful application create call. -/
def applicationFrom (name : String) (applicationID : String) (events : List Event) : Prop :=
  ∃ out, applicationID = TrimSpace out ∧
    (Event.az ["ad", "app", "list", "--display-name", name, "--query", "[0].appId",
        "-o", "tsv"] out none ∈ events ∨
      Event.az ["ad", "app", "create", "--display-name", name, "--query", "appId",
        "-o", "tsv"] out none ∈ events)

/-- What stages 1 to 5 hand over to the later stages. -/
def Prepared (config cfg : Config) (res : AzureResources) (events : List Event) : Prop :=
  cfg = withContext config res.SubscriptionID res.TenantID ∧
    res.Subject = "" ∧
    resolvedFrom config.Azure.SubscriptionID "id" res.SubscriptionID events ∧
    resolvedFrom config.Azure.TenantID "tenantId" res.TenantID events ∧
    applicationFrom config.Application.Name res.ApplicationID events

/-- What the creation stage hands over when it succeeds, and its events when
nothing in it failed. -/
def Created (cfg : Config) (res res2 : AzureResources) (events : List Event) : Prop :=
  res2.ApplicationID = res.ApplicationID ∧
    res2.SubscriptionID = res.SubscriptionID ∧
    res2.TenantID = res.TenantID ∧
    res2.Subject = subjectFrom cfg 0 (resolveWorkspaces cfg) res.Subject ∧
    ((∀ e ∈ events, e.failed = false) →
      CreationRun res.ApplicationID
        (expectedCredentials cfg (resolveWorkspaces cfg).length 0 (resolveWorkspaces cfg))
        events)

/-- The deferred removals at the end of a run. -/
def Removals (events : List Event) : Prop :=
  ∀ e ∈ events, ∃ path, e = Event.remove path

/-- The three ways a run can go: stages 1 to 5 abort it; the creation stage
aborts it; or it runs through the role stage and returns the resources. In
each case the trace is the concatenation of the events of the stages. -/
def RunShape (config : Config) (run : Run) : Prop :=
  (∃ np msg, Invariant (fun e => e.stage ≤ 5) np true ∧
      run.ret = .error msg ∧ run.trace = np) ∨
  (∃ np cfg res nc nk rm msg,
      Invariant (fun e => e.stage ≤ 5) np false ∧ Prepared config cfg res np ∧
      CleanupRun res.ApplicationID nc ∧
      Invariant (fun e => e.stage = 7) nk true ∧
      (∃ path err, Event.createTemp path err ∈ nk) ∧ Removals rm ∧
      run.ret = .error msg ∧ run.trace = np ++ nc ++ nk ++ rm) ∨
  (∃ np cfg res nc nk res2 nr rm,
      Invariant (fun e => e.stage ≤ 5) np false ∧ Prepared config cfg res np ∧
      CleanupRun res.ApplicationID nc ∧
      Invariant (fun e => e.stage = 7) nk false ∧
      (∃ path err, Event.createTemp path err ∈ nk) ∧ Created cfg res res2 nk ∧
      RoleRun cfg res2.ApplicationID (resolveRoles cfg) nr ∧ Removals rm ∧
      run.ret = .ok res2 ∧ run.trace = np ++ nc ++ nk ++ nr ++ rm)

/-! ### Concrete configurations and environments -/

/-- The configuration that names the organization `acme` and nothing else. -/
def minimalConfig : Config :=
  { TerraformCloud := { Organization := "acme", Workspace := "", Workspaces := [], Project := "" }
    Azure := { SubscriptionID := "", TenantID := "", Role := "", Scope := "", Roles := [] }
    Application := { Name := "", Audience := "" } }

/-- The validated configuration of the organization `acme`. -/
def acmeConfig : Config := (validateConfig minimalConfig).1

/-- An environment in which `az` answers by the command alone; temp files are
numbered by the length of the history, and writes succeed. -/
def steadyWorld (answer : List String → String × Option String) : World :=
  { azVersion := fun _ => none
    az := fun _ args => answer args
    createTemp := fun tr => ("/tmp/federated-cred-" ++ toString tr.length ++ ".json", none)
    write := fun _ _ _ => none }

/-- The environment in which the commands selected by `failing` fail (output
`ERROR`, error `exit status 1`) and every other command answers `id`. -/
def failingWorld (failing : List String → Bool) : World :=
  steadyWorld (fun args => if failing args then ("ERROR", some "exit status 1") else ("id", none))

/-- The environment in which every call succeeds. -/
def calmWorld : World := failingWorld (fun _ => false)

/-- The environment in which only the two list calls of stages 3 and 4 fail:
the application list and the service-principal list. -/
def listDownWorld : World :=
  failingWorld (fun args =>
    args.take 3 == ["ad", "app", "list"] || args.take 3 == ["ad", "sp", "list"])

/-- The environment in which only the account queries fail. -/
def accountDownWorld : World := failingWorld (fun args => args.take 1 == ["account"])

/-- The environment in which every role-assignment call fails. -/
def rolesDownWorld : World := failingWorld (fun args => args.take 1 == ["role"])

/-- The environment in which every call succeeds and the role lookups find
nothing (an empty answer). -/
def noRolesWorld : World :=
  steadyWorld (fun args =>
    if args.take 3 == ["role", "assignment", "list"] then ("", none) else ("id", none))

/-- The configuration of `acme` that asks for the Reader role on the
subscription twice. -/
def twiceReaderConfig : Config :=
  { acmeConfig with
    Azure := { acmeConfig.Azure with
      Role := ""
      Roles := [{ Name := "Reader", Scope := "" }, { Name := "Reader", Scope := "" }] } }

/-- The configuration of `acme` that lists the workspace `prod` twice. -/
def twiceProdConfig : Config :=
  { acmeConfig with
    TerraformCloud := { acmeConfig.TerraformCloud with Workspaces := ["prod", "prod"] } }

/-- The environment in which every call succeeds and the credential listing
names one credential of this tool and one foreign credential. -/
def listingWorld : World :=
  steadyWorld (fun args =>
    if args.take 4 == ["ad", "app", "federated-credential", "list"] then
      ("terraform-cloud-federated-credential-plan\nmanual-credential\n", none)
    else ("id", none))

/-- An interaction that hands over no credential document, or one whose name
starts with the name stem of this tool. -/
def ownDocument (e : Event) : Prop :=
  ∀ path cred err, e = Event.write path cred err → HasPrefix cred.name credentialStem = true

/-- The plan credential of the one workspace `*` of the `acme` configuration. -/
def planCredential : FederatedCred := federatedCred acmeConfig 1 0 "*" "plan"

/-! # Theorems -/

/-! ## Sequencing -/

theorem bind_run {α β : Type} (m : Proc α) (f : α → Proc β) (w : World)
    (tr : List Event) :
    (m >>= f) w tr =
      match m w tr with
      | (.ok a, tr1) => f a w tr1
      | (.error e, tr1) => (.error e, tr1) := rfl

theorem pure_run {α : Type} (a : α) (w : World) (tr : List Event) :
    (pure a : Proc α) w tr = (.ok a, tr) := rfl

theorem bind_bind {α β γ : Type} (m : Proc α) (f : α → Proc β) (g : β → Proc γ) :
    (m >>= f) >>= g = m >>= fun a => f a >>= g := by
  funext w tr
  simp only [bind_run]
  rcases m w tr with ⟨_ | a, tr1⟩ <;> rfl

theorem setupSteps_eq (config : Config) :
    setupSteps config = prepare config >>= fun p => finish p.1 p.2 := by
  unfold setupSteps prepare finish
  simp only [bind_bind]
  rfl

theorem grows_bind {α β : Type} {m : Proc α} {f : α → Proc β}
    {A : List Event → Except String α → Prop} {B : α → List Event → Except String β → Prop}
    {Q : List Event → Except String β → Prop}
    (h1 : Grows m A) (h2 : ∀ a, Grows (f a) (B a))
    (herr : ∀ n e, A n (.error e) → Q n (.error e))
    (hok : ∀ n1 a n2 r, A n1 (.ok a) → B a n2 r → Q (n1 ++ n2) r) :
    Grows (m >>= f) Q := by
  intro w tr
  obtain ⟨n1, e1, q1⟩ := h1 w tr
  simp only [bind_run]
  rcases hm : m w tr with ⟨_ | a, tr1⟩
  · rw [hm] at e1 q1
    exact ⟨n1, e1, herr _ _ q1⟩
  · rw [hm] at e1 q1
    simp only at e1
    subst e1
    obtain ⟨n2, e2, q2⟩ := h2 a w (tr ++ n1)
    exact ⟨n1 ++ n2, by simp only [e2, List.append_assoc], hok _ _ _ _ q1 q2⟩

theorem grows_mono {α : Type} {m : Proc α} {Q Q2 : List Event → Except String α → Prop}
    (h : Grows m Q) (hq : ∀ n r, Q n r → Q2 n r) : Grows m Q2 := by
  intro w tr
  obtain ⟨n, e, q⟩ := h w tr
  exact ⟨n, e, hq _ _ q⟩

theorem grows_and {α : Type} {m : Proc α} {Q Q2 : List Event → Except String α → Prop}
    (h : Grows m Q) (h2 : Grows m Q2) : Grows m (fun n r => Q n r ∧ Q2 n r) := by
  intro w tr
  obtain ⟨n, e, q⟩ := h w tr
  obtain ⟨n2, e2, q2⟩ := h2 w tr
  have : n = n2 := List.append_cancel_left (e.symm.trans e2)
  subst this
  exact ⟨n, e, q, q2⟩

theorem invariant_seq {P : Event → Prop} {n1 n2 : List Event} {b : Bool}
    (h1 : Invariant P n1 false) (h2 : Invariant P n2 b) : Invariant P (n1 ++ n2) b := by
  obtain ⟨a1, -, c1⟩ := h1
  obtain ⟨a2, b2, c2⟩ := h2
  refine ⟨?_, ?_, ?_⟩
  · intro e he
    rcases List.mem_append.1 he with h | h
    · exact a1 e h
    · exact a2 e h
  · intro hb
    obtain ⟨e, he, hf⟩ := b2 hb
    exact ⟨e, List.mem_append_right _ he, hf⟩
  · intro e he hfat hfail
    rcases List.mem_append.1 he with h | h
    · exact absurd (c1 e h hfat hfail).1 (by simp)
    · obtain ⟨hb, hl⟩ := c2 e h hfat hfail
      refine ⟨hb, ?_⟩
      rw [List.getLast?_append, hl]
      rfl

theorem keeps_bind {α β : Type} {P : Event → Prop} {m : Proc α} {f : α → Proc β}
    (h1 : Keeps P m) (h2 : ∀ a, Keeps P (f a)) : Keeps P (m >>= f) := by
  refine grows_bind h1 h2 (fun n e q => q) (fun n1 a n2 r q1 q2 => ?_)
  exact invariant_seq q1 q2

theorem keeps_mono {α : Type} {P P2 : Event → Prop} {m : Proc α} (h : Keeps P m)
    (hp : ∀ e, P e → P2 e) : Keeps P2 m :=
  grows_mono h (fun _ _ q => ⟨fun e he => hp e (q.1 e he), q.2⟩)

theorem keeps_pure {α : Type} {P : Event → Prop} (a : α) : Keeps P (pure a : Proc α) := by
  intro w tr
  refine ⟨[], ?_, ?_⟩
  · simp [pure_run]
  · simp [Invariant, pure_run, isError]

/-! ## The stages, one by one -/

theorem checkAzureCLI_keeps : Keeps (fun e => e.stage = 1) checkAzureCLI := by
  intro w tr
  unfold checkAzureCLI
  rcases h : w.azVersion tr with _ | err <;> simp only [] <;> refine ⟨_, rfl, ?_⟩ <;>
    simp [Invariant, isError, Event.stage, Event.failed, fatalCall]

theorem sleep_keeps (n : Nat) : Keeps (fun e => e.stage = 5) (sleep n) := by
  intro w tr
  exact ⟨[Event.sleep n], rfl,
    by simp [Invariant, isError, Event.stage, Event.failed, fatalCall, sleep]⟩

theorem resolveSubscription_keeps (config : Config) :
    Keeps (fun e => e.stage = 2) (resolveSubscription config) := by
  intro w tr
  unfold resolveSubscription
  split
  · simp only [bind_run, runAzCommand]
    generalize w.az tr _ = r
    rcases r with ⟨out, _ | err⟩ <;> simp only [azResult, Proc.fail, pure_run] <;>
      refine ⟨_, rfl, ?_⟩ <;>
      simp [Invariant, isError, Event.stage, azStage, Event.failed, fatalCall]
  · exact keeps_pure _ w tr

theorem resolveTenant_keeps (config : Config) :
    Keeps (fun e => e.stage = 2) (resolveTenant config) := by
  intro w tr
  unfold resolveTenant
  split
  · simp only [bind_run, runAzCommand]
    generalize w.az tr _ = r
    rcases r with ⟨out, _ | err⟩ <;> simp only [azResult, Proc.fail, pure_run] <;>
      refine ⟨_, rfl, ?_⟩ <;>
      simp [Invariant, isError, Event.stage, azStage, Event.failed, fatalCall]
  · exact keeps_pure _ w tr

theorem ensureApplication_keeps (config : Config) :
    Keeps (fun e => e.stage = 3) (ensureApplication config) := by
  intro w tr
  unfold ensureApplication
  simp only [bind_run, runAzCommand]
  generalize w.az tr _ = r
  rcases r with ⟨out, _ | err⟩ <;> simp only [azResult]
  · split
    · simp only [bind_run, runAzCommand]
      generalize w.az _ _ = r2
      rcases r2 with ⟨out2, _ | err2⟩ <;> simp only [azResult, Proc.fail, pure_run] <;>
        refine ⟨_, (List.append_assoc _ _ _), ?_⟩ <;>
        simp [Invariant, isError, Event.stage, azStage, Event.failed, fatalCall]
    · simp only [pure_run]
      refine ⟨_, rfl, ?_⟩
      simp [Invariant, isError, Event.stage, azStage, Event.failed, fatalCall]
  · simp only [ne_eq, reduceCtorEq, not_false_eq_true, or_true, if_true, bind_run, runAzCommand]
    generalize w.az _ _ = r2
    rcases r2 with ⟨out2, _ | err2⟩ <;> simp only [azResult, Proc.fail, pure_run] <;>
      refine ⟨_, (List.append_assoc _ _ _), ?_⟩ <;>
      simp [Invariant, isError, Event.stage, azStage, Event.failed, fatalCall]

theorem ensureServicePrincipal_keeps (applicationID : String) :
    Keeps (fun e => e.stage = 4) (ensureServicePrincipal applicationID) := by
  intro w tr
  unfold ensureServicePrincipal
  simp only [bind_run, runAzCommand]
  generalize w.az tr _ = r
  rcases r with ⟨out, _ | err⟩ <;> simp only [azResult]
  · split
    · simp only [bind_run, runAzCommand]
      generalize w.az _ _ = r2
      rcases r2 with ⟨out2, _ | err2⟩ <;> simp only [azResult, Proc.fail, pure_run] <;>
        refine ⟨_, (List.append_assoc _ _ _), ?_⟩ <;>
        simp [Invariant, isError, Event.stage, azStage, Event.failed, fatalCall]
    · simp only [pure_run]
      refine ⟨_, rfl, ?_⟩
      simp [Invariant, isError, Event.stage, azStage, Event.failed, fatalCall]
  · simp only [ne_eq, reduceCtorEq, not_false_eq_true, or_true, if_true, bind_run, runAzCommand]
    generalize w.az _ _ = r2
    rcases r2 with ⟨out2, _ | err2⟩ <;> simp only [azResult, Proc.fail, pure_run] <;>
      refine ⟨_, (List.append_assoc _ _ _), ?_⟩ <;>
      simp [Invariant, isError, Event.stage, azStage, Event.failed, fatalCall]

theorem prepare_keeps (config : Config) : Keeps (fun e => e.stage ≤ 5) (prepare config) := by
  unfold prepare
  refine keeps_bind (keeps_mono checkAzureCLI_keeps (fun e h => by simp only [h]; decide)) fun _ => ?_
  refine keeps_bind (keeps_mono (resolveSubscription_keeps _) (fun e h => by simp only [h]; decide))
    fun _ => ?_
  refine keeps_bind (keeps_mono (resolveTenant_keeps _) (fun e h => by simp only [h]; decide))
    fun _ => ?_
  refine keeps_bind (keeps_mono (ensureApplication_keeps _) (fun e h => by simp only [h]; decide))
    fun _ => ?_
  refine keeps_bind (keeps_mono (ensureServicePrincipal_keeps _) (fun e h => by simp only [h]; decide))
    fun _ => ?_
  refine keeps_bind (keeps_mono (sleep_keeps _) (fun e h => by simp only [h]; decide)) fun _ => ?_
  exact keeps_pure _

theorem runAzCommand_keeps {P : Event → Prop} (args : List String)
    (hP : ∀ out err, P (Event.az args out err))
    (hfat : ∀ out err, fatalCall (Event.az args out err) = false) :
    Keeps P (runAzCommand args) := by
  intro w tr
  refine ⟨_, rfl, ?_⟩
  simp [Invariant, isError, hP, hfat, runAzCommand]

theorem runAzCommand_grows (args : List String) :
    Grows (runAzCommand args)
      (fun new r => ∃ out err, new = [Event.az args out err] ∧ r = .ok (azResult out err)) := by
  intro w tr
  exact ⟨_, rfl, _, _, rfl, rfl⟩

theorem deleteCredentials_keeps (applicationID : String) (names : List String) :
    Keeps (fun e => e.stage = 6) (deleteCredentials applicationID names) := by
  induction names with
  | nil => exact keeps_pure _
  | cons credName rest ih =>
    unfold deleteCredentials
    split
    · refine keeps_bind (runAzCommand_keeps _ ?_ ?_) fun _ => ih
      · intro out err; simp [Event.stage, azStage]
      · intro out err; simp [fatalCall]
    · exact ih

theorem cleanupCredentials_keeps (applicationID : String) :
    Keeps (fun e => e.stage = 6) (cleanupCredentials applicationID) := by
  unfold cleanupCredentials
  refine keeps_bind (runAzCommand_keeps _ ?_ ?_) fun r => ?_
  · intro out err; simp [Event.stage, azStage]
  · intro out err; simp [fatalCall]
  · split
    · exact deleteCredentials_keeps _ _
    · exact keeps_pure _

theorem deleteCredentials_grows (applicationID : String) (names : List String) :
    Grows (deleteCredentials applicationID names)
      (fun new r => r = .ok () ∧
        DeleteRun applicationID
          (names.filter (fun credName => HasPrefix credName credentialStem)) new) := by
  induction names with
  | nil =>
    intro w tr
    exact ⟨[], by simp [deleteCredentials, pure_run], rfl, List.Forall₂.nil⟩
  | cons credName rest ih =>
    unfold deleteCredentials
    split
    · rename_i hp
      refine grows_bind (runAzCommand_grows _) (fun _ => ih) ?_ ?_
      · rintro n e ⟨_, _, _, h⟩
        cases h
      · rintro n1 a n2 r ⟨out, err, rfl, -⟩ ⟨hr, hd⟩
        refine ⟨hr, ?_⟩
        simp only [List.filter_cons, hp, if_true, List.singleton_append]
        exact List.Forall₂.cons ⟨out, err, rfl⟩ hd
    · rename_i hp
      refine grows_mono ih ?_
      rintro n r ⟨hr, hd⟩
      refine ⟨hr, ?_⟩
      simp only [List.filter_cons, hp]
      exact hd

theorem cleanupCredentials_grows (applicationID : String) :
    Grows (cleanupCredentials applicationID)
      (fun new r => r = .ok () ∧ CleanupRun applicationID new) := by
  unfold cleanupCredentials
  refine grows_bind (runAzCommand_grows _)
    (B := fun a n r => r = .ok () ∧
      DeleteRun applicationID
        (if a.2 = none then
          (SplitLines (TrimSpace a.1)).filter (fun credName => HasPrefix credName credentialStem)
        else []) n) (fun a => ?_) ?_ ?_
  · split
    · rename_i h
      refine grows_mono (deleteCredentials_grows _ _) ?_
      rintro n r ⟨hr, hd⟩
      refine ⟨hr, ?_⟩
      rw [if_pos h.1]
      exact hd
    · rename_i h
      intro w tr
      refine ⟨[], by simp [pure_run], rfl, ?_⟩
      by_cases h2 : a.2 = none
      · have h3 : TrimSpace a.1 = "" := by
          by_contra hne
          exact h ⟨h2, hne⟩
        rw [if_pos h2, h3]
        exact List.Forall₂.nil
      · rw [if_neg h2]
        exact List.Forall₂.nil
  · rintro n e ⟨_, _, _, h⟩
    cases h
  · rintro n1 a n2 r ⟨out, err, rfl, ha⟩ ⟨hr, hd⟩
    refine ⟨hr, out, err, n2, rfl, ?_⟩
    cases ha
    rcases err with _ | err
    · simpa [azResult] using hd
    · simpa [azResult] using hd

/-! ### Credential creation -/

theorem createCredential_keeps (config : Config) (total i : Nat) (workspace runPhase : String)
    (resources : AzureResources) :
    Keeps (fun e => e.stage = 7)
      (createCredential config total i workspace runPhase resources) := by
  intro w tr
  unfold createCredential
  simp only [bind_run, createTemp]
  generalize w.createTemp tr = t
  rcases t with ⟨path, _ | e1⟩ <;> simp only [Proc.fail]
  · simp only [bind_run, writeTemp]
    generalize w.write _ _ _ = we
    rcases we with _ | e2 <;> simp only [Proc.fail]
    · simp only [bind_run, runAzCommand]
      generalize w.az _ _ = r
      rcases r with ⟨out, _ | e3⟩ <;> simp only [azResult, Proc.fail]
      · split <;> simp only [pure_run, List.append_assoc, List.singleton_append] <;>
          refine ⟨_, rfl, ?_⟩ <;>
          simp [Invariant, isError, Event.stage, azStage, Event.failed, fatalCall]
      · simp only [List.append_assoc, List.singleton_append]
        refine ⟨_, rfl, ?_⟩
        simp [Invariant, isError, Event.stage, azStage, Event.failed, fatalCall]
    · simp only [List.append_assoc, List.singleton_append]
      refine ⟨_, rfl, ?_⟩
      simp [Invariant, isError, Event.stage, azStage, Event.failed, fatalCall]
  · refine ⟨_, rfl, ?_⟩
    simp [Invariant, isError, Event.stage, azStage, Event.failed, fatalCall]

theorem createPhases_keeps (config : Config) (total i : Nat) (workspace : String)
    (phases : List String) (resources : AzureResources) :
    Keeps (fun e => e.stage = 7) (createPhases config total i workspace phases resources) := by
  induction phases generalizing resources with
  | nil => exact keeps_pure _
  | cons runPhase rest ih =>
    unfold createPhases
    exact keeps_bind (createCredential_keeps _ _ _ _ _ _) fun _ => ih _

theorem createWorkspaces_keeps (config : Config) (total i : Nat) (workspaces : List String)
    (resources : AzureResources) :
    Keeps (fun e => e.stage = 7) (createWorkspaces config total i workspaces resources) := by
  induction workspaces generalizing i resources with
  | nil => exact keeps_pure _
  | cons workspace rest ih =>
    unfold createWorkspaces
    exact keeps_bind (createPhases_keeps _ _ _ _ _ _) fun _ => ih _ _

theorem creationRun_append {applicationID : String} {c1 c2 : List FederatedCred}
    {n1 n2 : List Event} (h1 : CreationRun applicationID c1 n1)
    (h2 : CreationRun applicationID c2 n2) :
    CreationRun applicationID (c1 ++ c2) (n1 ++ n2) := by
  induction c1 generalizing n1 with
  | nil =>
    simp only [CreationRun] at h1
    subst h1
    simpa using h2
  | cons c cs ih =>
    obtain ⟨path, out, rest, rfl, hrest⟩ := h1
    exact ⟨path, out, rest ++ n2, by simp, ih hrest⟩

/-- What one round of the inner loop adds: the result is the argument with the
subject set for the plan phase of workspace 0; when nothing fails it is
returned, and the events are those of one creation. -/
theorem createCredential_grows (config : Config) (total i : Nat) (workspace runPhase : String)
    (resources : AzureResources) :
    Grows (createCredential config total i workspace runPhase resources)
      (fun new r =>
        (∀ res, r = .ok res →
          res = if i = 0 ∧ runPhase = "plan" then
              { resources with
                Subject := (federatedCred config total i workspace runPhase).subject }
            else resources) ∧
        ((∀ e ∈ new, e.failed = false) →
          (∃ res, r = .ok res) ∧
            CreationRun resources.ApplicationID
              [federatedCred config total i workspace runPhase] new)) := by
  intro w tr
  unfold createCredential
  simp only [bind_run, createTemp]
  generalize w.createTemp tr = t
  rcases t with ⟨path, _ | e1⟩ <;> simp only [Proc.fail]
  · simp only [bind_run, writeTemp]
    generalize w.write _ _ _ = we
    rcases we with _ | e2 <;> simp only [Proc.fail]
    · simp only [bind_run, runAzCommand]
      generalize w.az _ _ = r
      rcases r with ⟨out, _ | e3⟩ <;> simp only [azResult, Proc.fail]
      · split <;> simp only [pure_run, List.append_assoc, List.singleton_append] <;>
          refine ⟨_, rfl, ?_⟩ <;> simp_all [CreationRun]
      · simp only [List.append_assoc, List.singleton_append]
        refine ⟨_, rfl, ?_⟩
        simp [Event.failed]
    · simp only [List.append_assoc, List.singleton_append]
      refine ⟨_, rfl, ?_⟩
      simp [Event.failed]
  · refine ⟨_, rfl, ?_⟩
    simp [Event.failed]

theorem bind_pure_run {α : Type} (m : Proc α) : (m >>= fun a => pure a) = m := by
  funext w tr
  simp only [bind_run]
  rcases m w tr with ⟨_ | a, tr1⟩ <;> rfl

theorem pure_grows {α : Type} (a : α) :
    Grows (pure a : Proc α) (fun new r => new = [] ∧ r = .ok a) := by
  intro w tr
  exact ⟨[], by simp [pure_run], rfl, rfl⟩

theorem createPhases_grows (config : Config) (total i : Nat) (workspace : String)
    (resources : AzureResources) :
    Grows (createPhases config total i workspace runPhases resources)
      (fun new r =>
        (∀ res, r = .ok res →
          res = if i = 0 then
              { resources with
                Subject := constructSubjectClaim config.TerraformCloud.Organization
                  config.TerraformCloud.Project workspace "plan" }
            else resources) ∧
        ((∀ e ∈ new, e.failed = false) →
          (∃ res, r = .ok res) ∧
            CreationRun resources.ApplicationID
              [federatedCred config total i workspace "plan",
                federatedCred config total i workspace "apply"] new)) := by
  have hstep : createPhases config total i workspace runPhases resources =
      createCredential config total i workspace "plan" resources >>= fun res1 =>
        createCredential config total i workspace "apply" res1 := by
    simp only [runPhases, createPhases]
    congr 1
    funext res1
    exact bind_pure_run _
  rw [hstep]
  refine grows_bind (createCredential_grows config total i workspace "plan" resources)
    (fun res1 => createCredential_grows config total i workspace "apply" res1) ?_ ?_
  · rintro n e ⟨-, h2⟩
    refine ⟨fun res h => (by cases h), fun hok => ?_⟩
    obtain ⟨⟨res, hres⟩, -⟩ := h2 hok
    cases hres
  · rintro n1 res1 n2 r ⟨ha, hb⟩ ⟨hc, hd⟩
    have h1 := ha res1 rfl
    have happ : res1.ApplicationID = resources.ApplicationID := by
      rw [h1]; split <;> rfl
    refine ⟨fun res hres => ?_, fun hok => ?_⟩
    · have h2 := hc res hres
      have hne : ¬ (i = 0 ∧ ("apply" : String) = "plan") := by
        rintro ⟨-, h⟩
        exact absurd h (by decide)
      rw [if_neg hne] at h2
      rw [h2, h1]
      by_cases hi : i = 0
      · simp [hi, federatedCred]
      · simp [hi]
    · have hok1 : ∀ e ∈ n1, e.failed = false := fun e he => hok e (List.mem_append_left _ he)
      have hok2 : ∀ e ∈ n2, e.failed = false := fun e he => hok e (List.mem_append_right _ he)
      obtain ⟨-, hrun1⟩ := hb hok1
      obtain ⟨hex, hrun2⟩ := hd hok2
      rw [happ] at hrun2
      exact ⟨hex, creationRun_append hrun1 hrun2⟩

theorem expectedCredentials_cons (config : Config) (total i : Nat) (workspace : String)
    (rest : List String) :
    expectedCredentials config total i (workspace :: rest) =
      [federatedCred config total i workspace "plan",
        federatedCred config total i workspace "apply"] ++
        expectedCredentials config total (i + 1) rest := by
  simp [expectedCredentials, List.enumFrom_cons, List.flatMap_cons, runPhases]

/-- What the creation loop adds: the result keeps the identifiers of the
argument and carries the subject of workspace 0; when nothing fails the loop
returns and its events are the creations of the expected credentials. -/
theorem createWorkspaces_grows (config : Config) (total i : Nat) (workspaces : List String)
    (resources : AzureResources) :
    Grows (createWorkspaces config total i workspaces resources)
      (fun new r =>
        (∀ res, r = .ok res →
          res.ApplicationID = resources.ApplicationID ∧
          res.SubscriptionID = resources.SubscriptionID ∧
          res.TenantID = resources.TenantID ∧
          res.Subject = subjectFrom config i workspaces resources.Subject) ∧
        ((∀ e ∈ new, e.failed = false) →
          (∃ res, r = .ok res) ∧
            CreationRun resources.ApplicationID
              (expectedCredentials config total i workspaces) new)) := by
  induction workspaces generalizing i resources with
  | nil =>
    refine grows_mono (pure_grows resources) ?_
    rintro n r ⟨rfl, rfl⟩
    refine ⟨fun res h => ?_, fun _ => ⟨⟨_, rfl⟩, ?_⟩⟩
    · cases h
      exact ⟨rfl, rfl, rfl, rfl⟩
    · simp [expectedCredentials, CreationRun]
  | cons workspace rest ih =>
    unfold createWorkspaces
    refine grows_bind (createPhases_grows config total i workspace resources)
      (fun res1 => ih (i + 1) res1) ?_ ?_
    · rintro n e ⟨-, h2⟩
      refine ⟨fun res h => (by cases h), fun hok => ?_⟩
      obtain ⟨⟨res, hres⟩, -⟩ := h2 hok
      cases hres
    · rintro n1 res1 n2 r ⟨ha, hb⟩ ⟨hc, hd⟩
      have h1 := ha res1 rfl
      have happ : res1.ApplicationID = resources.ApplicationID := by
        rw [h1]; split <;> rfl
      refine ⟨fun res hres => ?_, fun hok => ?_⟩
      · obtain ⟨e1, e2, e3, e4⟩ := hc res hres
        have hsub : subjectFrom config (i + 1) rest res1.Subject = res1.Subject := by
          unfold subjectFrom
          cases rest <;> simp
        rw [hsub] at e4
        rw [e1, e2, e3, e4, h1]
        by_cases hi : i = 0 <;> simp [hi, subjectFrom]
      · have hok1 : ∀ e ∈ n1, e.failed = false := fun e he => hok e (List.mem_append_left _ he)
        have hok2 : ∀ e ∈ n2, e.failed = false :=
          fun e he => hok e (List.mem_append_right _ he)
        obtain ⟨-, hrun1⟩ := hb hok1
        obtain ⟨hex, hrun2⟩ := hd hok2
        rw [happ] at hrun2
        rw [expectedCredentials_cons]
        exact ⟨hex, creationRun_append hrun1 hrun2⟩

/-! ### Role assignment -/

theorem assignRoles_keeps (config : Config) (applicationID : String)
    (roles : List RoleAssignment) :
    Keeps (fun e => e.stage = 8) (assignRoles config applicationID roles) := by
  induction roles with
  | nil => exact keeps_pure _
  | cons role rest ih =>
    unfold assignRoles
    refine keeps_bind ?_ fun _ => ih
    unfold assignRole
    refine keeps_bind (runAzCommand_keeps _ ?_ ?_) fun r => ?_
    · intro out err; simp [Event.stage, azStage]
    · intro out err; simp [fatalCall]
    · dsimp only
      split
      · exact keeps_pure _
      · refine keeps_bind (runAzCommand_keeps _ ?_ ?_) fun _ => keeps_pure _
        · intro out err; simp [Event.stage, azStage]
        · intro out err; simp [fatalCall]

/-- The role loop never aborts the run, and its events are those of `RoleRun`:
a lookup per role, and a create call exactly after a lookup that reported
nothing. -/
theorem assignRoles_grows (config : Config) (applicationID : String)
    (roles : List RoleAssignment) :
    Grows (assignRoles config applicationID roles)
      (fun new r => r = .ok () ∧ RoleRun config applicationID roles new) := by
  induction roles with
  | nil =>
    refine grows_mono (pure_grows ()) ?_
    rintro n r ⟨rfl, rfl⟩
    exact ⟨rfl, rfl⟩
  | cons role rest ih =>
    unfold assignRoles
    refine grows_bind
      (A := fun n r => r = .ok () ∧ ∃ out err,
        (TrimSpace (azResult out err).1 ≠ "" ∧
          n = [Event.az ["role", "assignment", "list", "--assignee", applicationID,
            "--role", role.Name, "--scope", roleScope config role, "--query", "[0].id",
            "-o", "tsv"] out err]) ∨
        (TrimSpace (azResult out err).1 = "" ∧ ∃ out2 err2,
          n = [Event.az ["role", "assignment", "list", "--assignee", applicationID,
            "--role", role.Name, "--scope", roleScope config role, "--query", "[0].id",
            "-o", "tsv"] out err,
            Event.az ["role", "assignment", "create", "--assignee", applicationID,
              "--role", role.Name, "--scope", roleScope config role] out2 err2]))
      ?_ (fun _ => ih) ?_ ?_
    · unfold assignRole
      refine grows_bind (runAzCommand_grows _)
        (B := fun a n r => r = .ok () ∧
          ((TrimSpace a.1 ≠ "" ∧ n = []) ∨
            (TrimSpace a.1 = "" ∧ ∃ out2 err2,
              n = [Event.az ["role", "assignment", "create", "--assignee", applicationID,
                "--role", role.Name, "--scope", roleScope config role] out2 err2])))
        (fun a => ?_) ?_ ?_
      · dsimp only
        split
        · rename_i h
          refine grows_mono (pure_grows ()) ?_
          rintro n r ⟨rfl, rfl⟩
          exact ⟨rfl, Or.inl ⟨h, rfl⟩⟩
        · rename_i h
          refine grows_bind (runAzCommand_grows _) (fun _ => pure_grows ()) ?_ ?_
          · rintro n e ⟨_, _, _, h2⟩
            cases h2
          · rintro n1 a1 n2 r ⟨out2, err2, rfl, -⟩ ⟨rfl, rfl⟩
            exact ⟨rfl, Or.inr ⟨not_not.1 h, out2, err2, rfl⟩⟩
      · rintro n e ⟨_, _, _, h2⟩
        cases h2
      · rintro n1 a n2 r ⟨out, err, rfl, ha⟩ ⟨hr, hcases⟩
        cases ha
        refine ⟨hr, out, err, ?_⟩
        rcases hcases with ⟨h1, rfl⟩ | ⟨h1, out2, err2, rfl⟩
        · exact Or.inl ⟨h1, rfl⟩
        · exact Or.inr ⟨h1, out2, err2, rfl⟩
    · rintro n e ⟨h, -⟩
      cases h
    · rintro n1 a n2 r ⟨-, out, err, hcases⟩ ⟨hr, hrun⟩
      refine ⟨hr, ?_⟩
      rcases hcases with ⟨h1, rfl⟩ | ⟨h1, out2, err2, rfl⟩
      · exact ⟨out, err, n2, rfl, Or.inl ⟨h1, hrun⟩⟩
      · exact ⟨out, err, _, rfl, Or.inr ⟨h1, out2, err2, n2, rfl, hrun⟩⟩

/-! ### What stages 1 to 5 return -/

theorem resolveSubscription_grows (config : Config) :
    Grows (resolveSubscription config)
      (fun new r => ∀ cfg, r = .ok cfg →
        ∃ s, cfg = withContext config s config.Azure.TenantID ∧
          resolvedFrom config.Azure.SubscriptionID "id" s new) := by
  intro w tr
  unfold resolveSubscription
  split
  · rename_i hs
    simp only [bind_run, runAzCommand]
    generalize w.az tr _ = r
    rcases r with ⟨out, _ | err⟩ <;> simp only [azResult, Proc.fail, pure_run] <;>
      refine ⟨_, rfl, ?_⟩
    · intro cfg hcfg
      cases hcfg
      exact ⟨TrimSpace out, rfl, Or.inr ⟨hs, out, by simp, rfl⟩⟩
    · intro cfg hcfg
      cases hcfg
  · rename_i hs
    refine ⟨[], by simp [pure_run], ?_⟩
    intro cfg hcfg
    cases hcfg
    exact ⟨config.Azure.SubscriptionID, rfl, Or.inl ⟨hs, rfl⟩⟩

theorem resolveTenant_grows (config : Config) :
    Grows (resolveTenant config)
      (fun new r => ∀ cfg, r = .ok cfg →
        ∃ t, cfg = withContext config config.Azure.SubscriptionID t ∧
          resolvedFrom config.Azure.TenantID "tenantId" t new) := by
  intro w tr
  unfold resolveTenant
  split
  · rename_i hs
    simp only [bind_run, runAzCommand]
    generalize w.az tr _ = r
    rcases r with ⟨out, _ | err⟩ <;> simp only [azResult, Proc.fail, pure_run] <;>
      refine ⟨_, rfl, ?_⟩
    · intro cfg hcfg
      cases hcfg
      exact ⟨TrimSpace out, rfl, Or.inr ⟨hs, out, by simp, rfl⟩⟩
    · intro cfg hcfg
      cases hcfg
  · rename_i hs
    refine ⟨[], by simp [pure_run], ?_⟩
    intro cfg hcfg
    cases hcfg
    exact ⟨config.Azure.TenantID, rfl, Or.inl ⟨hs, rfl⟩⟩

theorem ensureApplication_grows (config : Config) :
    Grows (ensureApplication config)
      (fun new r => ∀ appID, r = .ok appID →
        applicationFrom config.Application.Name appID new) := by
  intro w tr
  unfold ensureApplication
  simp only [bind_run, runAzCommand]
  generalize w.az tr _ = r
  rcases r with ⟨out, _ | err⟩ <;> simp only [azResult]
  · split
    · simp only [bind_run, runAzCommand]
      generalize w.az _ _ = r2
      rcases r2 with ⟨out2, _ | err2⟩ <;> simp only [azResult, Proc.fail, pure_run] <;>
        refine ⟨_, (List.append_assoc _ _ _), ?_⟩
      · intro appID h
        cases h
        exact ⟨out2, rfl, Or.inr (by simp)⟩
      · intro appID h
        cases h
    · simp only [pure_run]
      refine ⟨_, rfl, ?_⟩
      intro appID h
      cases h
      exact ⟨out, rfl, Or.inl (by simp)⟩
  · simp only [ne_eq, reduceCtorEq, not_false_eq_true, or_true, if_true, bind_run, runAzCommand]
    generalize w.az _ _ = r2
    rcases r2 with ⟨out2, _ | err2⟩ <;> simp only [azResult, Proc.fail, pure_run] <;>
      refine ⟨_, (List.append_assoc _ _ _), ?_⟩
    · intro appID h
      cases h
      exact ⟨out2, rfl, Or.inr (by simp)⟩
    · intro appID h
      cases h

theorem grows_trivial {α : Type} {P : Event → Prop} {m : Proc α} (h : Keeps P m) :
    Grows m (fun _ _ => True) :=
  grows_mono h (fun _ _ _ => True.intro)

theorem resolvedFrom_mono {configured query value : String} {n2 : List Event} (n1 n3 : List Event)
    (h : resolvedFrom configured query value n2) :
    resolvedFrom configured query value (n1 ++ n2 ++ n3) := by
  rcases h with h | ⟨h1, out, h2, h3⟩
  · exact Or.inl h
  · exact Or.inr ⟨h1, out, by simp [h2], h3⟩

theorem applicationFrom_mono {name value : String} {n2 : List Event} (n1 n3 : List Event)
    (h : applicationFrom name value n2) : applicationFrom name value (n1 ++ n2 ++ n3) := by
  obtain ⟨out, h1, h2⟩ := h
  refine ⟨out, h1, ?_⟩
  rcases h2 with h2 | h2
  · exact Or.inl (by simp [h2])
  · exact Or.inr (by simp [h2])

theorem prepare_grows (config : Config) :
    Grows (prepare config)
      (fun new r => ∀ cfg res, r = .ok (cfg, res) → Prepared config cfg res new) := by
  unfold prepare
  refine grows_bind (grows_trivial checkAzureCLI_keeps)
    (B := fun _ n r => ∀ cfg res, r = .ok (cfg, res) → Prepared config cfg res n)
    (fun _ => ?_) (fun n e _ cfg res h => by cases h)
    (fun n1 _ n2 r _ h cfg res hr => ?_)
  · refine grows_bind (resolveSubscription_grows config)
      (B := fun c1 n r => ∀ cfg res, r = .ok (cfg, res) →
        ∃ t, cfg = withContext c1 c1.Azure.SubscriptionID t ∧
          res.SubscriptionID = c1.Azure.SubscriptionID ∧ res.TenantID = t ∧ res.Subject = "" ∧
          resolvedFrom c1.Azure.TenantID "tenantId" t n ∧
          applicationFrom c1.Application.Name res.ApplicationID n)
      (fun c1 => ?_) (fun n e _ cfg res h => by cases h)
      (fun n1 c1 n2 r h1 h2 cfg res hr => ?_)
    · refine grows_bind (resolveTenant_grows c1)
        (B := fun c2 n r => ∀ cfg res, r = .ok (cfg, res) →
          cfg = c2 ∧ res.SubscriptionID = c1.Azure.SubscriptionID ∧
            res.TenantID = c2.Azure.TenantID ∧ res.Subject = "" ∧
            applicationFrom c2.Application.Name res.ApplicationID n)
        (fun c2 => ?_) (fun n e _ cfg res h => by cases h)
        (fun n1 c2 n2 r h1 h2 cfg res hr => ?_)
      · refine grows_bind (ensureApplication_grows c2)
          (B := fun appID n r => ∀ cfg res, r = .ok (cfg, res) →
            cfg = c2 ∧ res.SubscriptionID = c1.Azure.SubscriptionID ∧
              res.TenantID = c2.Azure.TenantID ∧ res.Subject = "" ∧ res.ApplicationID = appID)
          (fun appID => ?_) (fun n e _ cfg res h => by cases h)
          (fun n1 appID n2 r h1 h2 cfg res hr => ?_)
        · refine grows_bind (grows_trivial (ensureServicePrincipal_keeps _))
            (B := fun _ n r => ∀ cfg res, r = .ok (cfg, res) →
              cfg = c2 ∧ res.SubscriptionID = c1.Azure.SubscriptionID ∧
                res.TenantID = c2.Azure.TenantID ∧ res.Subject = "" ∧
                res.ApplicationID = appID)
            (fun _ => ?_) (fun n e _ cfg res h => by cases h)
            (fun n1 _ n2 r _ h cfg res hr => h cfg res hr)
          refine grows_bind (grows_trivial (sleep_keeps 5)) (fun _ => pure_grows _)
            (fun n e _ cfg res h => by cases h) ?_
          rintro n1 _ n2 r - ⟨-, rfl⟩ cfg res hr
          cases hr
          exact ⟨rfl, rfl, rfl, rfl, rfl⟩
        · obtain ⟨e1, e2, e3, e4, e5⟩ := h2 cfg res hr
          refine ⟨e1, e2, e3, e4, ?_⟩
          rw [e5]
          have := applicationFrom_mono [] n2 (h1 appID rfl)
          simpa using this
      · obtain ⟨t, ht, hfrom⟩ := h1 c2 rfl
        obtain ⟨e1, e2, e3, e4, e5⟩ := h2 cfg res hr
        refine ⟨t, ?_, e2, ?_, e4, ?_, ?_⟩
        · rw [e1, ht]
        · rw [e3, ht]; rfl
        · have := resolvedFrom_mono [] n2 hfrom
          simpa using this
        · have := applicationFrom_mono n1 [] e5
          rw [ht] at this
          simpa [withContext] using this
    · obtain ⟨s, hs, hfrom⟩ := h1 c1 rfl
      obtain ⟨t, e1, e2, e3, e4, e5, e6⟩ := h2 cfg res hr
      refine ⟨?_, e4, ?_, ?_, ?_⟩
      · rw [e1, e2, e3, hs]; rfl
      · rw [e2, hs]
        have := resolvedFrom_mono [] n2 hfrom
        simpa [withContext] using this
      · rw [e3]
        have := resolvedFrom_mono n1 [] e5
        rw [hs] at this
        simpa [withContext] using this
      · have := applicationFrom_mono n1 [] e6
        rw [hs] at this
        simpa [withContext] using this
  · have := h cfg res hr
    obtain ⟨e1, e2, e3, e4, e5⟩ := this
    refine ⟨e1, e2, ?_, ?_, ?_⟩
    · have := resolvedFrom_mono n1 [] e3
      simpa using this
    · have := resolvedFrom_mono n1 [] e4
      simpa using this
    · have := applicationFrom_mono n1 [] e5
      simpa using this

/-! ## The shape of a whole run -/

theorem grows_run {α : Type} {m : Proc α} {Q : List Event → Except String α → Prop}
    (h : Grows m Q) (w : World) (tr : List Event) :
    ∃ new r, m w tr = (r, tr ++ new) ∧ Q new r := by
  obtain ⟨n, e, q⟩ := h w tr
  exact ⟨n, (m w tr).1, Prod.ext rfl e, q⟩

theorem resolveWorkspaces_ne_nil (config : Config) : resolveWorkspaces config ≠ [] := by
  unfold resolveWorkspaces
  by_cases h1 : config.TerraformCloud.Workspaces = [] <;>
    by_cases h2 : config.TerraformCloud.Workspace = "" <;> simp [h1, h2]

theorem grows_bind_left {α β : Type} {m : Proc α} {f : α → Proc β} {A : List Event → Prop}
    (h1 : Grows m (fun n _ => A n)) (h2 : ∀ a, Grows (f a) (fun _ _ => True))
    (hA : ∀ n1 n2, A n1 → A (n1 ++ n2)) : Grows (m >>= f) (fun n _ => A n) :=
  grows_bind h1 h2 (fun _ _ h => h) (fun _ _ _ _ h _ => hA _ _ h)

theorem createCredential_starts (config : Config) (total i : Nat) (workspace runPhase : String)
    (resources : AzureResources) :
    Grows (createCredential config total i workspace runPhase resources)
      (fun new _ => ∃ path err, Event.createTemp path err ∈ new) := by
  intro w tr
  unfold createCredential
  simp only [bind_run, createTemp]
  generalize w.createTemp tr = t
  rcases t with ⟨path, _ | e1⟩ <;> simp only [Proc.fail]
  · simp only [bind_run, writeTemp]
    generalize w.write _ _ _ = we
    rcases we with _ | e2 <;> simp only [Proc.fail]
    · simp only [bind_run, runAzCommand]
      generalize w.az _ _ = r
      rcases r with ⟨out, _ | e3⟩ <;> simp only [azResult, Proc.fail]
      · split <;> simp only [pure_run, List.append_assoc, List.singleton_append] <;>
          exact ⟨_, rfl, path, none, by simp⟩
      · simp only [List.append_assoc, List.singleton_append]
        exact ⟨_, rfl, path, none, by simp⟩
    · simp only [List.append_assoc, List.singleton_append]
      exact ⟨_, rfl, path, none, by simp⟩
  · exact ⟨_, rfl, path, some e1, by simp⟩

theorem createWorkspaces_starts (config : Config) (total i : Nat) (workspace : String)
    (rest : List String) (resources : AzureResources) :
    Grows (createWorkspaces config total i (workspace :: rest) resources)
      (fun new _ => ∃ path err, Event.createTemp path err ∈ new) := by
  have hA : ∀ n1 n2 : List Event, (∃ path err, Event.createTemp path err ∈ n1) →
      ∃ path err, Event.createTemp path err ∈ n1 ++ n2 := by
    rintro n1 n2 ⟨path, err, h⟩
    exact ⟨path, err, List.mem_append_left _ h⟩
  unfold createWorkspaces
  refine grows_bind_left ?_ (fun a => grows_trivial (createWorkspaces_keeps _ _ _ _ a)) hA
  rw [runPhases, createPhases]
  exact grows_bind_left (createCredential_starts _ _ _ _ _ _)
    (fun a => grows_trivial (createPhases_keeps _ _ _ _ _ a)) hA

theorem tempPaths_of_stage (events : List Event) (h : ∀ e ∈ events, e.stage ≠ 7) :
    tempPaths events = [] := by
  induction events with
  | nil => rfl
  | cons e rest ih =>
    have hrest := ih (fun x hx => h x (List.mem_cons_of_mem _ hx))
    have he := h e (List.mem_cons_self _ _)
    cases e <;> simp_all [tempPaths, Event.stage]

theorem removals_map (paths : List String) : Removals (paths.map Event.remove) := by
  intro e he
  obtain ⟨path, -, rfl⟩ := List.mem_map.1 he
  exact ⟨path, rfl⟩

/-- Every run of `setupAzureWorkloadIdentity` has one of the three shapes. -/
theorem setup_shape (w : World) (config : Config) :
    RunShape config (setupAzureWorkloadIdentity w config) := by
  unfold setupAzureWorkloadIdentity
  rw [setupSteps_eq]
  simp only [bind_run]
  obtain ⟨np, rp, hp, hpinv, hpval⟩ :=
    grows_run (grows_and (prepare_keeps config) (prepare_grows config)) w []
  rw [hp]
  simp only [List.nil_append] at hp ⊢
  rcases rp with msg | ⟨cfg, res⟩
  · left
    refine ⟨np, msg, hpinv, rfl, ?_⟩
    have : tempPaths np = [] := by
      refine tempPaths_of_stage _ (fun e he => ?_)
      have := hpinv.1 e he
      omega
    simp [this]
  · right
    have hprep := hpval cfg res rfl
    simp only [finish, bind_run]
    obtain ⟨nc, rc, hc, hcr, hcrun⟩ :=
      grows_run (cleanupCredentials_grows res.ApplicationID) w np
    rw [hc]
    subst hcr
    simp only []
    obtain ⟨nk, rk, hk, ⟨hkinv, hkstart⟩, hkval, hkrun⟩ :=
      grows_run (grows_and (grows_and (createWorkspaces_keeps cfg
        (resolveWorkspaces cfg).length 0 (resolveWorkspaces cfg) res)
        (show Grows (createWorkspaces cfg (resolveWorkspaces cfg).length 0
            (resolveWorkspaces cfg) res)
            (fun new _ => ∃ path err, Event.createTemp path err ∈ new) by
          rcases hws : resolveWorkspaces cfg with _ | ⟨workspace, rest⟩
          · exact absurd hws (resolveWorkspaces_ne_nil cfg)
          · exact createWorkspaces_starts _ _ _ _ _ _))
        (createWorkspaces_grows cfg (resolveWorkspaces cfg).length 0
          (resolveWorkspaces cfg) res)) w (np ++ nc)
    rw [hk]
    rcases rk with msg | res2
    · left
      exact ⟨np, cfg, res, nc, nk, _, msg, hpinv, hprep, hcrun, hkinv, hkstart,
        removals_map _, rfl, rfl⟩
    · right
      simp only []
      obtain ⟨nr, rr, hr, hrr, hrrun⟩ :=
        grows_run (assignRoles_grows cfg res2.ApplicationID (resolveRoles cfg)) w
          (np ++ nc ++ nk)
      rw [hr]
      subst hrr
      simp only [pure_run]
      obtain ⟨v1, v2, v3, v4⟩ := hkval res2 rfl
      exact ⟨np, cfg, res, nc, nk, res2, nr, _, hpinv, hprep, hcrun, hkinv, hkstart,
        ⟨v1, v2, v3, v4, fun hok => (hkrun hok).2⟩, hrrun, removals_map _, rfl, rfl⟩

/-! ## Lines of a listing -/

theorem splitLines_single (a : List Char) (ha : newline ∉ a) : splitLines a = [a] := by
  induction a with
  | nil => rfl
  | cons c cs ih =>
    have hc : c ≠ newline := fun h => ha (h ▸ List.mem_cons_self _ _)
    have hcs : newline ∉ cs := fun h => ha (List.mem_cons_of_mem _ h)
    unfold splitLines
    rw [if_neg hc, ih hcs]

theorem splitLines_line (a x : List Char) (ha : newline ∉ a) :
    splitLines (a ++ newline :: x) = a :: splitLines x := by
  induction a with
  | nil =>
    show splitLines (newline :: x) = [] :: splitLines x
    rw [splitLines, if_pos rfl]
  | cons c cs ih =>
    have hc : c ≠ newline := fun h => ha (h ▸ List.mem_cons_self _ _)
    have hcs : newline ∉ cs := fun h => ha (List.mem_cons_of_mem _ h)
    show splitLines (c :: (cs ++ newline :: x)) = (c :: cs) :: splitLines x
    rw [splitLines, if_neg hc, ih hcs]

theorem joinLines_cons_cons (n m : String) (rest : List String) :
    (joinLines (n :: m :: rest)).data = n.data ++ newline :: (joinLines (m :: rest)).data := by
  have e : ("\n" : String).data = [newline] := by decide
  simp only [joinLines, String.data_append, e, List.append_assoc, List.singleton_append]
  rfl

theorem splitLines_joinLines (names : List String) (hne : names ≠ [])
    (h : ∀ n ∈ names, newline ∉ n.data) :
    splitLines (joinLines names).data = names.map String.data := by
  induction names with
  | nil => exact absurd rfl hne
  | cons n rest ih =>
    cases rest with
    | nil =>
      simp only [joinLines, List.map_cons, List.map_nil]
      exact splitLines_single _ (h n (List.mem_cons_self _ _))
    | cons m rest2 =>
      rw [joinLines_cons_cons, splitLines_line _ _ (h n (List.mem_cons_self _ _)),
        ih (by simp) (fun x hx => h x (List.mem_cons_of_mem _ hx))]
      rfl

theorem joinLines_head (n : String) (rest : List String) (hn : n ≠ "") :
    ∃ c tail, n.data = c :: tail ∧ ∃ tail2, (joinLines (n :: rest)).data = c :: tail2 := by
  rcases hd : n.data with _ | ⟨c, tail⟩
  · exact absurd (String.ext hd) hn
  · refine ⟨c, tail, rfl, ?_⟩
    cases rest with
    | nil => exact ⟨tail, by simp [joinLines, hd]⟩
    | cons m rest2 => exact ⟨_, by rw [joinLines_cons_cons, hd]; rfl⟩

theorem joinLines_last (names : List String) (hne : names ≠ [])
    (h : ∀ n ∈ names, n ≠ "" ∧ ∀ c, n.data.getLast? = some c → isSpace c = false) :
    ∃ init c, (joinLines names).data = init ++ [c] ∧ isSpace c = false := by
  induction names with
  | nil => exact absurd rfl hne
  | cons n rest ih =>
    cases rest with
    | nil =>
      obtain ⟨hn, hl⟩ := h n (List.mem_cons_self _ _)
      have hdne : n.data ≠ [] := fun hd => hn (String.ext hd)
      have hsome : n.data.getLast? = some (n.data.getLast hdne) :=
        List.getLast?_eq_getLast _ hdne
      refine ⟨n.data.dropLast, n.data.getLast hdne, ?_, hl _ hsome⟩
      simp only [joinLines]
      exact (List.dropLast_append_getLast hdne).symm
    | cons m rest2 =>
      obtain ⟨init, c, he, hc⟩ := ih (by simp) (fun x hx => h x (List.mem_cons_of_mem _ hx))
      refine ⟨n.data ++ newline :: init, c, ?_, hc⟩
      rw [joinLines_cons_cons, he]
      simp

theorem isSpace_newline : isSpace newline = true := by decide

theorem trimSpace_joinLines (names : List String) (hne : names ≠ [])
    (h : ∀ n ∈ names, cleanName n) :
    TrimSpace (joinLines names) = joinLines names ∧
      TrimSpace (joinLines names ++ "\n") = joinLines names := by
  obtain ⟨n, rest, rfl⟩ := List.exists_cons_of_ne_nil hne
  obtain ⟨hn, -, hhead, -⟩ := h n (List.mem_cons_self _ _)
  obtain ⟨c, tail, hnd, tail2, hjd⟩ := joinLines_head n rest hn
  have hc : isSpace c = false := hhead c (by rw [hnd]; rfl)
  obtain ⟨init, d, hid, hd⟩ := joinLines_last (n :: rest) hne
    (fun x hx => ⟨(h x hx).1, (h x hx).2.2.2⟩)
  have e : ("\n" : String).data = [newline] := by decide
  constructor
  · apply String.ext
    simp only [TrimSpace]
    rw [hjd, List.dropWhile_cons_of_neg (by simp [hc]), ← hjd, hid,
      List.rdropWhile_concat_neg _ _ _ (by simp [hd])]
  · apply String.ext
    simp only [TrimSpace, String.data_append, e]
    rw [show ['\n'] = [newline] from rfl, hjd, List.cons_append, List.dropWhile_cons_of_neg (by simp [hc]), ← List.cons_append,
      ← hjd, List.rdropWhile_concat_pos _ _ _ isSpace_newline, hid,
      List.rdropWhile_concat_neg _ _ _ (by simp [hd])]

/-- For clean names printed one per line, with or without a final line feed,
the lines of the trimmed listing that carry the stem are the names that carry
it. -/
theorem listing_lines (names : List String) (h : ∀ n ∈ names, cleanName n) (out : String)
    (hout : out = joinLines names ∨ out = joinLines names ++ "\n") :
    (SplitLines (TrimSpace out)).filter (fun n => HasPrefix n credentialStem)
      = names.filter (fun n => HasPrefix n credentialStem) := by
  by_cases hne : names = []
  · subst hne
    rcases hout with rfl | rfl <;> decide
  · have htrim : TrimSpace out = joinLines names := by
      rcases hout with rfl | rfl
      · exact (trimSpace_joinLines names hne h).1
      · exact (trimSpace_joinLines names hne h).2
    rw [htrim, SplitLines, splitLines_joinLines names hne (fun n hn => (h n hn).2.1)]
    simp only [List.map_map]
    have : (String.mk ∘ String.data) = id := by
      funext s
      rfl
    rw [this, List.map_id]

/-! ## Observations and stages -/

theorem fatalCall_stage (e : Event) (h : fatalCall e = true) : 2 ≤ e.stage ∧ e.stage ≤ 4 := by
  cases e with
  | az args out err =>
    rcases args with _ | ⟨a, _ | ⟨b, _ | ⟨c, rest⟩⟩⟩ <;>
      simp [fatalCall, Event.stage, azStage] at h ⊢
    · rcases h with ⟨rfl, rfl⟩
      simp
    · rcases h with ⟨rfl, rfl⟩ | ⟨rfl, rfl, rfl⟩ | ⟨rfl, rfl, rfl⟩ <;> simp
  | _ => simp [fatalCall] at h

theorem deletedCredential_stage (e : Event) (n : String) (h : deletedCredential e = some n) :
    e.stage = 6 := by
  cases e with
  | az args out err =>
    unfold deletedCredential at h
    split at h
    · rename_i heq
      cases heq
      split at h
      · rename_i hl
        simp only [List.cons.injEq, and_true] at hl
        obtain ⟨rfl, rfl, rfl, rfl, -⟩ := hl
        simp [Event.stage, azStage]
      · cases h
    · cases h
  | _ => simp [deletedCredential] at h

theorem creationCall_stage (e : Event) (x : String × Option String)
    (h : creationCall e = some x) : e.stage = 7 := by
  cases e with
  | az args out err =>
    unfold creationCall at h
    split at h
    · rename_i heq
      cases heq
      split at h
      · rename_i hl
        simp only [List.cons.injEq, and_true] at hl
        obtain ⟨rfl, rfl, rfl, rfl, -⟩ := hl
        simp [Event.stage, azStage]
      · cases h
    · cases h
  | _ => simp [creationCall] at h

theorem writtenDocument_stage (e : Event) (x : String × FederatedCred)
    (h : writtenDocument e = some x) : e.stage = 7 := by
  cases e <;> first | rfl | simp [writtenDocument] at h

theorem roleCreation_stage (e : Event) (t : String × String × String)
    (h : roleCreation e = some t) : e.stage = 8 := by
  cases e with
  | az args out err =>
    unfold roleCreation at h
    split at h
    · rename_i heq
      cases heq
      split at h
      · rename_i hl
        simp only [List.cons.injEq, and_true] at hl
        obtain ⟨rfl, -⟩ := hl
        simp [Event.stage, azStage]
      · cases h
    · cases h
  | _ => simp [roleCreation] at h

theorem roleLookup_stage (e : Event) (t : String × String × String)
    (h : roleLookup e = some t) : e.stage = 8 := by
  cases e with
  | az args out err =>
    unfold roleLookup at h
    split at h
    · rename_i heq
      cases heq
      split at h
      · rename_i hl
        simp only [List.cons.injEq, and_true] at hl
        obtain ⟨rfl, -⟩ := hl
        simp [Event.stage, azStage]
      · cases h
    · cases h
  | _ => simp [roleLookup] at h

theorem filterMap_eq_nil_of_stage {β : Type} (f : Event → Option β) (k : Nat)
    (hf : ∀ e x, f e = some x → e.stage = k) (events : List Event)
    (h : ∀ e ∈ events, e.stage ≠ k) : events.filterMap f = [] := by
  rw [List.filterMap_eq_nil_iff]
  intro e he
  cases hfe : f e with
  | none => rfl
  | some x => exact absurd (hf e x hfe) (h e he)

theorem deleteRun_stage {applicationID : String} {names : List String} {events : List Event}
    (h : DeleteRun applicationID names events) : ∀ e ∈ events, e.stage = 6 := by
  induction h with
  | nil => simp
  | cons h1 _ ih =>
    obtain ⟨out, err, rfl⟩ := h1
    intro e he
    rcases List.mem_cons.1 he with rfl | he
    · simp [Event.stage, azStage]
    · exact ih e he

theorem cleanupRun_stage {applicationID : String} {events : List Event}
    (h : CleanupRun applicationID events) : ∀ e ∈ events, e.stage = 6 := by
  obtain ⟨out, err, dels, rfl, hd⟩ := h
  intro e he
  rcases List.mem_cons.1 he with rfl | he
  · simp [Event.stage, azStage]
  · exact deleteRun_stage hd e he

theorem roleRun_stage {config : Config} {applicationID : String} {roles : List RoleAssignment}
    {events : List Event} (h : RoleRun config applicationID roles events) :
    ∀ e ∈ events, e.stage = 8 := by
  induction roles generalizing events with
  | nil =>
    simp only [RoleRun] at h
    subst h
    simp
  | cons role rest ih =>
    obtain ⟨out, err, tail, rfl, h2⟩ := h
    intro e he
    rcases List.mem_cons.1 he with rfl | he
    · simp [Event.stage, azStage]
    · rcases h2 with ⟨-, hrun⟩ | ⟨-, out2, err2, tail2, rfl, hrun⟩
      · exact ih hrun e he
      · rcases List.mem_cons.1 he with rfl | he
        · simp [Event.stage, azStage]
        · exact ih hrun e he

theorem removals_stage {events : List Event} (h : Removals events) :
    ∀ e ∈ events, e.stage = 9 ∧ e.failed = false := by
  intro e he
  obtain ⟨path, rfl⟩ := h e he
  exact ⟨rfl, rfl⟩

/-! ## Decimal numerals -/

theorem digitChar_value (k : Nat) (h : k < 10) : (Nat.digitChar k).toNat - 48 = k := by
  interval_cases k <;> rfl

theorem toDigitsCore_value (fuel n : Nat) (ds : List Char) (h : n < fuel) :
    ∃ front, Nat.toDigitsCore 10 fuel n ds = front ++ ds ∧
      front.foldl (fun a c => 10 * a + (c.toNat - 48)) 0 = n := by
  induction fuel generalizing n ds with
  | zero => omega
  | succ fuel ih =>
    unfold Nat.toDigitsCore
    simp only []
    split
    · rename_i h0
      refine ⟨[Nat.digitChar (n % 10)], rfl, ?_⟩
      simp only [List.foldl_cons, List.foldl_nil, Nat.mul_zero, Nat.zero_add]
      rw [digitChar_value _ (Nat.mod_lt _ (by decide))]
      omega
    · rename_i h0
      obtain ⟨front, hf, hv⟩ := ih (n / 10) (Nat.digitChar (n % 10) :: ds) (by omega)
      refine ⟨front ++ [Nat.digitChar (n % 10)], by rw [hf]; simp, ?_⟩
      rw [List.foldl_append, hv]
      simp only [List.foldl_cons, List.foldl_nil]
      rw [digitChar_value _ (Nat.mod_lt _ (by decide))]
      omega

/-- The decimal numeral of a natural number determines the number. -/
theorem toString_nat_injective (i j : Nat) (h : toString i = toString j) : i = j := by
  have hd : Nat.toDigits 10 i = Nat.toDigits 10 j := by
    have := congrArg String.data h
    exact this
  obtain ⟨f1, e1, v1⟩ := toDigitsCore_value (i + 1) i [] (by omega)
  obtain ⟨f2, e2, v2⟩ := toDigitsCore_value (j + 1) j [] (by omega)
  unfold Nat.toDigits at hd
  rw [e1, e2] at hd
  simp only [List.append_nil] at hd
  rw [← v1, ← v2, hd]

/-! ## The role stage -/

theorem roleLookup_list (applicationID role scope out : String) (err : Option String) :
    roleLookup (Event.az ["role", "assignment", "list", "--assignee", applicationID,
      "--role", role, "--scope", scope, "--query", "[0].id", "-o", "tsv"] out err)
      = some (applicationID, role, scope) := by
  simp [roleLookup]

theorem roleLookup_create (applicationID role scope out : String) (err : Option String) :
    roleLookup (Event.az ["role", "assignment", "create", "--assignee", applicationID,
      "--role", role, "--scope", scope] out err) = none := by
  simp [roleLookup]

theorem roleCreation_list (applicationID role scope out : String) (err : Option String) :
    roleCreation (Event.az ["role", "assignment", "list", "--assignee", applicationID,
      "--role", role, "--scope", scope, "--query", "[0].id", "-o", "tsv"] out err) = none := by
  simp [roleCreation]

theorem roleCreation_create (applicationID role scope out : String) (err : Option String) :
    roleCreation (Event.az ["role", "assignment", "create", "--assignee", applicationID,
      "--role", role, "--scope", scope] out err) = some (applicationID, role, scope) := by
  simp [roleCreation]

/-- Every role of the list gets its lookup, in order, whatever the outcomes. -/
theorem roleRun_lookups {config : Config} {applicationID : String}
    {roles : List RoleAssignment} {events : List Event}
    (h : RoleRun config applicationID roles events) :
    events.filterMap roleLookup = roles.map (roleTriple config applicationID) := by
  induction roles generalizing events with
  | nil =>
    simp only [RoleRun] at h
    subst h
    rfl
  | cons role rest ih =>
    obtain ⟨out, err, tail, rfl, h2⟩ := h
    rcases h2 with ⟨-, hrun⟩ | ⟨-, out2, err2, tail2, rfl, hrun⟩
    · simp [List.filterMap_cons, roleLookup_list, ih hrun, roleTriple]
    · simp [List.filterMap_cons, roleLookup_list, roleLookup_create, ih hrun, roleTriple]

theorem resolveWorkspaces_withContext (config : Config) (s t : String) :
    resolveWorkspaces (withContext config s t) = resolveWorkspaces config := rfl

theorem roleTriples_withContext (config : Config) (s t : String) (res : AzureResources)
    (hs : res.SubscriptionID = s) :
    (resolveRoles (withContext config s t)).map
        (roleTriple (withContext config s t) res.ApplicationID)
      = resolvedTriples config res := by
  subst hs
  rfl

theorem stage_ne_of_le {e : Event} {k : Nat} (h : e.stage ≤ 5) (hk : 5 < k) : e.stage ≠ k := by
  omega

/-- C8: when every call outside the role stage succeeds, the run returns the
resources whatever the role calls answer: the subscription and tenant are the
configured ones or the trimmed answers of the account queries, the application
id is the trimmed answer of the application list or create call, the subject
is the plan claim of the first workspace; and every resolved (role, scope)
pair gets its lookup, in order. -/
theorem role_failures_tolerated (w : World) (config : Config)
    (h : ∀ e ∈ (setupAzureWorkloadIdentity w config).trace, e.stage ≠ 8 → e.failed = false) :
    ∃ res, (setupAzureWorkloadIdentity w config).ret = .ok res ∧
      resolvedFrom config.Azure.SubscriptionID "id" res.SubscriptionID
        (setupAzureWorkloadIdentity w config).trace ∧
      resolvedFrom config.Azure.TenantID "tenantId" res.TenantID
        (setupAzureWorkloadIdentity w config).trace ∧
      applicationFrom config.Application.Name res.ApplicationID
        (setupAzureWorkloadIdentity w config).trace ∧
      (∃ workspace rest, resolveWorkspaces config = workspace :: rest ∧
        res.Subject = constructSubjectClaim config.TerraformCloud.Organization
          config.TerraformCloud.Project workspace "plan") ∧
      (setupAzureWorkloadIdentity w config).trace.filterMap roleLookup
        = resolvedTriples config res := by
  rcases setup_shape w config with
    ⟨np, msg, hinv, hret, htr⟩ |
    ⟨np, cfg, res, nc, nk, rm, msg, hinv, -, hclean, hkinv, -, hrm, -, htr⟩ |
    ⟨np, cfg, res, nc, nk, res2, nr, rm, hinv, hprep, hclean, hkinv, -, hcreated, hrole, hrm,
      hret, htr⟩
  · obtain ⟨e, he, hf, h8⟩ := hinv.2.1 rfl
    rw [htr] at h
    rw [h e he h8] at hf
    cases hf
  · obtain ⟨e, he, hf, h8⟩ := hkinv.2.1 rfl
    rw [htr] at h
    rw [h e (by simp [he]) h8] at hf
    cases hf
  · obtain ⟨hcfg, hsubj, hsub, hten, happ⟩ := hprep
    obtain ⟨c1, c2, c3, c4, -⟩ := hcreated
    refine ⟨res2, hret, ?_, ?_, ?_, ?_, ?_⟩
    · rw [htr, c2]
      have := resolvedFrom_mono [] (nc ++ nk ++ nr ++ rm) hsub
      simpa [List.append_assoc] using this
    · rw [htr, c3]
      have := resolvedFrom_mono [] (nc ++ nk ++ nr ++ rm) hten
      simpa [List.append_assoc] using this
    · rw [htr, c1]
      have := applicationFrom_mono [] (nc ++ nk ++ nr ++ rm) happ
      simpa [List.append_assoc] using this
    · rw [hcfg, resolveWorkspaces_withContext] at c4
      rcases hws : resolveWorkspaces config with _ | ⟨workspace, rest⟩
      · exact absurd hws (resolveWorkspaces_ne_nil config)
      · refine ⟨workspace, rest, rfl, ?_⟩
        rw [c4, hws]
        simp [subjectFrom, withContext]
    · rw [htr]
      simp only [List.filterMap_append]
      rw [filterMap_eq_nil_of_stage roleLookup 8 roleLookup_stage np
          (fun e he => stage_ne_of_le (hinv.1 e he) (by decide)),
        filterMap_eq_nil_of_stage roleLookup 8 roleLookup_stage nc
          (fun e he => by rw [cleanupRun_stage hclean e he]; decide),
        filterMap_eq_nil_of_stage roleLookup 8 roleLookup_stage nk
          (fun e he => by rw [hkinv.1 e he]; decide),
        filterMap_eq_nil_of_stage roleLookup 8 roleLookup_stage rm
          (fun e he => by rw [(removals_stage hrm e he).1]; decide),
        roleRun_lookups hrole]
      simp only [List.nil_append, List.append_nil]
      rw [hcfg]
      exact roleTriples_withContext config _ _ res2 c2

set_option maxHeartbeats 4000000 in
/-- C8 at a concrete input: every role call fails, the run still returns the
resources and looks up the Contributor role on the subscription. -/
theorem role_failures_tolerated_witness :
    (∀ e ∈ (setupAzureWorkloadIdentity rolesDownWorld acmeConfig).trace,
        e.stage ≠ 8 → e.failed = false) ∧
      ∃ res, (setupAzureWorkloadIdentity rolesDownWorld acmeConfig).ret = .ok res ∧
        (setupAzureWorkloadIdentity rolesDownWorld acmeConfig).trace.filterMap roleLookup
          = resolvedTriples acmeConfig res := by
  refine ⟨by decide!, ?_⟩
  obtain ⟨res, h1, -, -, -, -, h2⟩ :=
    role_failures_tolerated rolesDownWorld acmeConfig (by decide!)
  exact ⟨res, h1, h2⟩

/-- The creation calls of the role stage are, in order, a sublist of the
triples of the roles: at most one call per entry of the list. -/
theorem roleRun_creations {config : Config} {applicationID : String}
    {roles : List RoleAssignment} {events : List Event}
    (h : RoleRun config applicationID roles events) :
    List.Sublist (events.filterMap roleCreation) (roles.map (roleTriple config applicationID)) := by
  induction roles generalizing events with
  | nil =>
    simp only [RoleRun] at h
    subst h
    exact List.Sublist.slnil
  | cons role rest ih =>
    obtain ⟨out, err, tail, rfl, h2⟩ := h
    rcases h2 with ⟨-, hrun⟩ | ⟨-, out2, err2, tail2, rfl, hrun⟩
    · simp only [List.filterMap_cons, roleCreation_list, List.map_cons]
      exact List.Sublist.cons _ (ih hrun)
    · simp only [List.filterMap_cons, roleCreation_list, roleCreation_create, List.map_cons,
        roleTriple]
      exact List.Sublist.cons₂ _ (ih hrun)

/-- When the triples of the roles are pairwise distinct, a triple whose lookup
succeeded with a non-empty answer gets no creation call. -/
theorem roleRun_guarded {config : Config} {applicationID : String}
    {roles : List RoleAssignment} {events : List Event}
    (h : RoleRun config applicationID roles events)
    (hnd : (roles.map (roleTriple config applicationID)).Nodup)
    (t : String × String × String) (out : String)
    (he : Event.az ["role", "assignment", "list", "--assignee", t.1, "--role", t.2.1,
      "--scope", t.2.2, "--query", "[0].id", "-o", "tsv"] out none ∈ events)
    (hout : TrimSpace out ≠ "") : t ∉ events.filterMap roleCreation := by
  induction roles generalizing events with
  | nil =>
    simp only [RoleRun] at h
    subst h
    simp
  | cons role rest ih =>
    obtain ⟨out0, err0, tail, rfl, h2⟩ := h
    rw [List.map_cons, List.nodup_cons] at hnd
    obtain ⟨hnotin, hnd2⟩ := hnd
    rcases h2 with ⟨-, hrun⟩ | ⟨hblank, out2, err2, tail2, rfl, hrun⟩
    · simp only [List.filterMap_cons, roleCreation_list]
      rcases List.mem_cons.1 he with heq | he
      · simp only [Event.az.injEq, List.cons.injEq, and_true, true_and] at heq
        obtain ⟨⟨h1, h2, h3⟩, -, -⟩ := heq
        have ht : t = roleTriple config applicationID role := by
          unfold roleTriple
          rw [← h1, ← h2, ← h3]
        intro hmem
        exact hnotin (ht ▸ (roleRun_creations hrun).subset hmem)
      · exact ih hrun hnd2 he
    · simp only [List.filterMap_cons, roleCreation_list, roleCreation_create]
      rcases List.mem_cons.1 he with heq | he
      · simp only [Event.az.injEq, List.cons.injEq, and_true, true_and] at heq
        obtain ⟨-, h4, h5⟩ := heq
        subst h4 h5
        exact absurd hblank hout
      · rcases List.mem_cons.1 he with heq | he
        · simp at heq
        · have hin : t ∈ tail2.filterMap roleLookup :=
            List.mem_filterMap.2 ⟨_, he, roleLookup_list _ _ _ _ _⟩
          rw [roleRun_lookups hrun] at hin
          intro hmem
          rcases List.mem_cons.1 hmem with heq | hmem
          · exact hnotin (by rw [roleTriple] at hnotin ⊢; exact heq ▸ hin)
          · exact ih hrun hnd2 he hmem

/-! ## Reading one stage off the trace -/

theorem filterMap_segments {β : Type} (f : Event → Option β) (k : Nat)
    (hf : ∀ e x, f e = some x → e.stage = k) (hk : 6 ≤ k ∧ k ≤ 8) {np nc nk nr rm : List Event}
    (h1 : ∀ e ∈ np, e.stage ≤ 5) (h2 : ∀ e ∈ nc, e.stage = 6) (h3 : ∀ e ∈ nk, e.stage = 7)
    (h4 : ∀ e ∈ nr, e.stage = 8) (h5 : Removals rm) :
    (np ++ nc ++ nk ++ nr ++ rm).filterMap f =
      if k = 6 then nc.filterMap f else if k = 7 then nk.filterMap f else nr.filterMap f := by
  have e1 : k ≠ 6 → nc.filterMap f = [] := fun hk =>
    filterMap_eq_nil_of_stage f k hf nc (fun e he => by rw [h2 e he]; exact fun h => hk h.symm)
  have e2 : k ≠ 7 → nk.filterMap f = [] := fun hk =>
    filterMap_eq_nil_of_stage f k hf nk (fun e he => by rw [h3 e he]; exact fun h => hk h.symm)
  have e3 : k ≠ 8 → nr.filterMap f = [] := fun hk =>
    filterMap_eq_nil_of_stage f k hf nr (fun e he => by rw [h4 e he]; exact fun h => hk h.symm)
  have e4 : np.filterMap f = [] :=
    filterMap_eq_nil_of_stage f k hf np (fun e he => stage_ne_of_le (h1 e he) (by omega))
  have e5 : rm.filterMap f = [] :=
    filterMap_eq_nil_of_stage f k hf rm
      (fun e he => by rw [(removals_stage h5 e he).1]; omega)
  simp only [List.filterMap_append, e4, e5, List.nil_append, List.append_nil]
  by_cases k6 : k = 6
  · rw [if_pos k6, e2 (by omega), e3 (by omega)]
    simp
  · rw [if_neg k6]
    by_cases k7 : k = 7
    · rw [if_pos k7, e1 k6, e3 (by omega)]
      simp
    · rw [if_neg k7, e1 k6, e2 k7]
      simp

theorem mem_segments {e : Event} {np nc nk nr rm : List Event}
    (he : e ∈ np ++ nc ++ nk ++ nr ++ rm)
    (h1 : ∀ e ∈ np, e.stage ≤ 5) (h2 : ∀ e ∈ nc, e.stage = 6) (h3 : ∀ e ∈ nk, e.stage = 7)
    (h4 : ∀ e ∈ nr, e.stage = 8) (h5 : Removals rm) :
    (e.stage = 6 → e ∈ nc) ∧ (e.stage = 7 → e ∈ nk) ∧ (e.stage = 8 → e ∈ nr) := by
  simp only [List.mem_append] at he
  rcases he with (((he | he) | he) | he) | he
  · have := h1 e he
    exact ⟨fun h => by omega, fun h => by omega, fun h => by omega⟩
  · have := h2 e he
    exact ⟨fun _ => he, fun h => by omega, fun h => by omega⟩
  · have := h3 e he
    exact ⟨fun h => by omega, fun _ => he, fun h => by omega⟩
  · have := h4 e he
    exact ⟨fun h => by omega, fun h => by omega, fun _ => he⟩
  · have := (removals_stage h5 e he).1
    exact ⟨fun h => by omega, fun h => by omega, fun h => by omega⟩

theorem ok_of_toOption {α : Type} {r : Except String α} {x : α}
    (h : r.toOption = some x) : r = .ok x := by
  cases r with
  | error e => simp [Except.toOption] at h
  | ok a =>
    simp only [Except.toOption, Option.some.injEq] at h
    rw [h]

/-- C7, as the code has it: the role-assignment creation calls of a run are,
in order, a sublist of the resolved (role, scope, principal) triples, one call
at most per entry of the list. When the resolved triples are pairwise distinct
there is at most one creation call per triple, and none for a triple whose
lookup succeeded with a non-empty answer. A run that returns an error issues no
creation call. -/
theorem role_creation_calls (w : World) (config : Config) :
    (∀ msg, (setupAzureWorkloadIdentity w config).ret = .error msg →
      (setupAzureWorkloadIdentity w config).trace.filterMap roleCreation = []) ∧
    (∀ res, (setupAzureWorkloadIdentity w config).ret = .ok res →
      List.Sublist ((setupAzureWorkloadIdentity w config).trace.filterMap roleCreation)
        (resolvedTriples config res) ∧
      ((resolvedTriples config res).Nodup →
        ((setupAzureWorkloadIdentity w config).trace.filterMap roleCreation).Nodup ∧
        ∀ (t : String × String × String) (out : String),
          Event.az ["role", "assignment", "list", "--assignee", t.1, "--role", t.2.1,
            "--scope", t.2.2, "--query", "[0].id", "-o", "tsv"] out none
              ∈ (setupAzureWorkloadIdentity w config).trace →
          TrimSpace out ≠ "" →
          t ∉ (setupAzureWorkloadIdentity w config).trace.filterMap roleCreation)) := by
  rcases setup_shape w config with
    ⟨np, msg, hinv, hret, htr⟩ |
    ⟨np, cfg, res, nc, nk, rm, msg, hinv, -, hclean, hkinv, -, hrm, hret, htr⟩ |
    ⟨np, cfg, res, nc, nk, res2, nr, rm, hinv, hprep, hclean, hkinv, -, hcreated, hrole, hrm,
      hret, htr⟩
  · refine ⟨fun _ _ => ?_, fun res2 h2 => ?_⟩
    · rw [htr]
      exact filterMap_eq_nil_of_stage roleCreation 8 roleCreation_stage np
        (fun e he => stage_ne_of_le (hinv.1 e he) (by decide))
    · rw [hret] at h2
      cases h2
  · refine ⟨fun _ _ => ?_, fun res2 h2 => ?_⟩
    · have hseg := filterMap_segments roleCreation 8 roleCreation_stage (by decide)
        hinv.1 (cleanupRun_stage hclean) hkinv.1
        (fun e (he : e ∈ ([] : List Event)) => absurd he (List.not_mem_nil e)) hrm
      rw [htr]
      simpa using hseg
    · rw [hret] at h2
      cases h2
  · have hseg := filterMap_segments roleCreation 8 roleCreation_stage (by decide)
      hinv.1 (cleanupRun_stage hclean) hkinv.1 (roleRun_stage hrole) hrm
    simp only [Nat.reduceEqDiff, if_false] at hseg
    have htriples : (resolveRoles cfg).map (roleTriple cfg res2.ApplicationID)
        = resolvedTriples config res2 := by
      rw [hprep.1]
      exact roleTriples_withContext config _ _ res2 hcreated.2.1
    refine ⟨fun msg h2 => ?_, fun res3 h3 => ?_⟩
    · rw [hret] at h2
      cases h2
    · rw [hret] at h3
      cases h3
      rw [htr, hseg]
      have hsub := roleRun_creations hrole
      rw [htriples] at hsub
      refine ⟨hsub, fun hnd => ⟨?_, fun t out he hout => ?_⟩⟩
      · exact hnd.sublist hsub
      · have hmem := (mem_segments he hinv.1 (cleanupRun_stage hclean) hkinv.1
          (roleRun_stage hrole) hrm).2.2 (by simp [Event.stage, azStage])
        rw [← htriples] at hnd
        exact roleRun_guarded hrole hnd t out hmem hout

set_option maxHeartbeats 4000000 in
/-- C7 at a concrete input: the lookup of the one configured role finds
nothing, and one creation call is issued for it. -/
theorem role_creation_calls_witness :
    (setupAzureWorkloadIdentity noRolesWorld acmeConfig).ret =
        .ok { ApplicationID := "id", SubscriptionID := "id", TenantID := "id",
              Subject := "organization:acme:workspace:*:run_phase:plan" } ∧
      List.Sublist ((setupAzureWorkloadIdentity noRolesWorld acmeConfig).trace.filterMap
          roleCreation)
        (resolvedTriples acmeConfig
          { ApplicationID := "id", SubscriptionID := "id", TenantID := "id",
            Subject := "organization:acme:workspace:*:run_phase:plan" }) :=
  ⟨ok_of_toOption (by decide!),
    ((role_creation_calls noRolesWorld acmeConfig).2 _ (ok_of_toOption (by decide!))).1⟩

set_option maxHeartbeats 4000000 in
/-- C7 fails when the roles list names a pair twice: with lookups that find
nothing, the run issues two creation calls for the one triple (application
`id`, role Reader, the subscription). -/
theorem duplicate_role_created_twice :
    (setupAzureWorkloadIdentity noRolesWorld twiceReaderConfig).trace.filterMap roleCreation
      = [("id", "Reader", "/subscriptions/id"), ("id", "Reader", "/subscriptions/id")] := by
  decide!

/-! ## The cleanup stage -/

theorem deleteRun_targets {applicationID : String} {names : List String} {events : List Event}
    (h : DeleteRun applicationID names events) :
    events.filterMap deletedCredential = names := by
  induction h with
  | nil => rfl
  | cons h1 _ ih =>
    obtain ⟨out, err, rfl⟩ := h1
    simp [List.filterMap_cons, deletedCredential, ih]

theorem deleteRun_not_listing {applicationID : String} {names : List String}
    {events : List Event} (h : DeleteRun applicationID names events)
    (a out : String) (err : Option String) :
    Event.az ["ad", "app", "federated-credential", "list", "--id", a, "--query", "[].name",
      "-o", "tsv"] out err ∉ events := by
  induction h with
  | nil => simp
  | cons h1 _ ih =>
    obtain ⟨out2, err2, rfl⟩ := h1
    intro hmem
    rcases List.mem_cons.1 hmem with heq | hmem
    · simp at heq
    · exact ih hmem

/-- The delete calls of a cleanup stage, read off its listing call. -/
theorem cleanupRun_deletes {applicationID : String} {events : List Event}
    (h : CleanupRun applicationID events) :
    (∀ n ∈ events.filterMap deletedCredential, HasPrefix n credentialStem = true) ∧
      ∀ a out, Event.az ["ad", "app", "federated-credential", "list", "--id", a, "--query",
          "[].name", "-o", "tsv"] out none ∈ events →
        events.filterMap deletedCredential =
          (SplitLines (TrimSpace out)).filter (fun n => HasPrefix n credentialStem) := by
  obtain ⟨out0, err0, dels, rfl, hd⟩ := h
  have hdel : (Event.az ["ad", "app", "federated-credential", "list", "--id", applicationID,
      "--query", "[].name", "-o", "tsv"] out0 err0 :: dels).filterMap deletedCredential
      = if err0 = none then
          (SplitLines (TrimSpace out0)).filter (fun n => HasPrefix n credentialStem)
        else [] := by
    rw [List.filterMap_cons, deleteRun_targets hd]
    simp [deletedCredential]
  refine ⟨fun n hn => ?_, fun a out hmem => ?_⟩
  · rw [hdel] at hn
    split at hn
    · exact (List.mem_filter.1 hn).2
    · cases hn
  · rcases List.mem_cons.1 hmem with heq | hmem
    · simp only [Event.az.injEq, List.cons.injEq, and_true, true_and] at heq
      obtain ⟨-, rfl, rfl⟩ := heq
      rw [hdel, if_pos rfl]
    · exact absurd hmem (deleteRun_not_listing hd a out none)

/-- C6: the delete calls of a run all carry the name stem of this tool; once
the listing call is issued the run goes on to the creation stage whatever the
delete calls answer; and after a successful listing the delete calls are, in
order, the lines of the trimmed listing that carry the stem. For names printed
one per line (not empty, no line feed inside, no white space at either end,
with or without a final line feed) a listed name is deleted exactly when it
carries the stem. -/
theorem cleanup_deletes_own_credentials (w : World) (config : Config) :
    (∀ n ∈ (setupAzureWorkloadIdentity w config).trace.filterMap deletedCredential,
      HasPrefix n "terraform-cloud-federated-credential" = true) ∧
    (∀ a out err, Event.az ["ad", "app", "federated-credential", "list", "--id", a, "--query",
        "[].name", "-o", "tsv"] out err ∈ (setupAzureWorkloadIdentity w config).trace →
      ∃ path e, Event.createTemp path e ∈ (setupAzureWorkloadIdentity w config).trace) ∧
    (∀ a out, Event.az ["ad", "app", "federated-credential", "list", "--id", a, "--query",
        "[].name", "-o", "tsv"] out none ∈ (setupAzureWorkloadIdentity w config).trace →
      (setupAzureWorkloadIdentity w config).trace.filterMap deletedCredential =
        (SplitLines (TrimSpace out)).filter
          (fun n => HasPrefix n "terraform-cloud-federated-credential") ∧
      ∀ names : List String, (∀ n ∈ names, cleanName n) →
        (out = joinLines names ∨ out = joinLines names ++ "\n") →
        (setupAzureWorkloadIdentity w config).trace.filterMap deletedCredential =
          names.filter (fun n => HasPrefix n "terraform-cloud-federated-credential") ∧
        ∀ n ∈ names,
          (n ∈ (setupAzureWorkloadIdentity w config).trace.filterMap deletedCredential ↔
            HasPrefix n "terraform-cloud-federated-credential" = true)) := by
  have key : ∀ (np nc nk nr rm : List Event) (a0 : String),
      (setupAzureWorkloadIdentity w config).trace = np ++ nc ++ nk ++ nr ++ rm →
      (∀ e ∈ np, e.stage ≤ 5) → CleanupRun a0 nc → (∀ e ∈ nk, e.stage = 7) →
      (∀ e ∈ nr, e.stage = 8) → Removals rm →
      (∃ path e, Event.createTemp path e ∈ nk) →
      (∀ n ∈ (setupAzureWorkloadIdentity w config).trace.filterMap deletedCredential,
        HasPrefix n credentialStem = true) ∧
      (∀ a out err, Event.az ["ad", "app", "federated-credential", "list", "--id", a,
          "--query", "[].name", "-o", "tsv"] out err
            ∈ (setupAzureWorkloadIdentity w config).trace →
        ∃ path e, Event.createTemp path e ∈ (setupAzureWorkloadIdentity w config).trace) ∧
      (∀ a out, Event.az ["ad", "app", "federated-credential", "list", "--id", a, "--query",
          "[].name", "-o", "tsv"] out none ∈ (setupAzureWorkloadIdentity w config).trace →
        (setupAzureWorkloadIdentity w config).trace.filterMap deletedCredential =
          (SplitLines (TrimSpace out)).filter (fun n => HasPrefix n credentialStem)) := by
    intro np nc nk nr rm a0 htr h1 hclean h3 h4 h5 hstart
    have hseg := filterMap_segments deletedCredential 6 deletedCredential_stage (by decide)
      h1 (cleanupRun_stage hclean) h3 h4 h5
    simp only [if_true] at hseg
    rw [htr, hseg]
    refine ⟨(cleanupRun_deletes hclean).1, fun a out err _ => ?_, fun a out hmem => ?_⟩
    · obtain ⟨path, e, hm⟩ := hstart
      exact ⟨path, e, by simp [hm]⟩
    · have hin := (mem_segments hmem h1 (cleanupRun_stage hclean) h3 h4 h5).1
        (by simp [Event.stage, azStage])
      exact (cleanupRun_deletes hclean).2 a out hin
  have main : (∀ n ∈ (setupAzureWorkloadIdentity w config).trace.filterMap deletedCredential,
        HasPrefix n credentialStem = true) ∧
      (∀ a out err, Event.az ["ad", "app", "federated-credential", "list", "--id", a,
          "--query", "[].name", "-o", "tsv"] out err
            ∈ (setupAzureWorkloadIdentity w config).trace →
        ∃ path e, Event.createTemp path e ∈ (setupAzureWorkloadIdentity w config).trace) ∧
      (∀ a out, Event.az ["ad", "app", "federated-credential", "list", "--id", a, "--query",
          "[].name", "-o", "tsv"] out none ∈ (setupAzureWorkloadIdentity w config).trace →
        (setupAzureWorkloadIdentity w config).trace.filterMap deletedCredential =
          (SplitLines (TrimSpace out)).filter (fun n => HasPrefix n credentialStem)) := by
    rcases setup_shape w config with
      ⟨np, msg, hinv, hret, htr⟩ |
      ⟨np, cfg, res, nc, nk, rm, msg, hinv, -, hclean, hkinv, hstart, hrm, hret, htr⟩ |
      ⟨np, cfg, res, nc, nk, res2, nr, rm, hinv, hprep, hclean, hkinv, hstart, -, hrole, hrm,
        hret, htr⟩
    · have hnone : ∀ a out err, Event.az ["ad", "app", "federated-credential", "list", "--id", a,
          "--query", "[].name", "-o", "tsv"] out err
            ∉ (setupAzureWorkloadIdentity w config).trace := by
        intro a out err hmem
        rw [htr] at hmem
        have := hinv.1 _ hmem
        simp [Event.stage, azStage] at this
      have hdel : (setupAzureWorkloadIdentity w config).trace.filterMap deletedCredential
          = [] := by
        rw [htr]
        exact filterMap_eq_nil_of_stage deletedCredential 6 deletedCredential_stage np
          (fun e he => stage_ne_of_le (hinv.1 e he) (by decide))
      rw [hdel]
      exact ⟨by simp, fun a out err hm => absurd hm (hnone a out err),
        fun a out hm => absurd hm (hnone a out none)⟩
    · exact key np nc nk [] rm res.ApplicationID (by simp [htr]) hinv.1 hclean hkinv.1
        (by simp) hrm hstart
    · exact key np nc nk nr rm res.ApplicationID htr hinv.1 hclean hkinv.1
        (roleRun_stage hrole) hrm hstart
  obtain ⟨m1, m2, m3⟩ := main
  refine ⟨m1, m2, fun a out hmem => ⟨m3 a out hmem, fun names hclean hout => ?_⟩⟩
  have hl := listing_lines names hclean out hout
  have hdel := (m3 a out hmem).trans hl
  refine ⟨hdel, fun n hn => ?_⟩
  rw [hdel]
  exact ⟨fun h => (List.mem_filter.1 h).2, fun h => List.mem_filter.2 ⟨hn, h⟩⟩

set_option maxHeartbeats 4000000 in
/-- C6 at a concrete input: the listing names a credential of this tool and a
foreign one; only the former is deleted. -/
theorem cleanup_deletes_own_credentials_witness :
    (Event.az ["ad", "app", "federated-credential", "list", "--id", "id", "--query",
        "[].name", "-o", "tsv"] "terraform-cloud-federated-credential-plan\nmanual-credential\n"
        none ∈ (setupAzureWorkloadIdentity listingWorld acmeConfig).trace) ∧
      (setupAzureWorkloadIdentity listingWorld acmeConfig).trace.filterMap deletedCredential
        = ["terraform-cloud-federated-credential-plan"] := by
  refine ⟨by decide!, ?_⟩
  rw [((cleanup_deletes_own_credentials listingWorld acmeConfig).2.2 "id"
    "terraform-cloud-federated-credential-plan\nmanual-credential\n" (by decide!)).1]
  decide

/-! ## The creation stage -/

theorem creationRun_documents {applicationID : String} {creds : List FederatedCred}
    {events : List Event} (h : CreationRun applicationID creds events) :
    ∃ paths : List String, paths.length = creds.length ∧
      events.filterMap writtenDocument = List.zip paths creds ∧
      events.filterMap creationCall = paths.map (fun p => ("@" ++ p, none)) := by
  induction creds generalizing events with
  | nil =>
    simp only [CreationRun] at h
    subst h
    exact ⟨[], rfl, rfl, rfl⟩
  | cons c cs ih =>
    obtain ⟨path, out, rest, rfl, hrest⟩ := h
    obtain ⟨paths, hl, hw, hc⟩ := ih hrest
    refine ⟨path :: paths, by simp [hl], ?_, ?_⟩
    · simp [List.filterMap_cons, writtenDocument, hw]
    · simp [List.filterMap_cons, creationCall, hc]

theorem zip_documents (paths : List String) (creds : List FederatedCred)
    (h : paths.length = creds.length) :
    (List.zip (List.zip paths creds)
        (paths.map (fun p => (("@" ++ p, none) : String × Option String)))).filterMap
      (fun x => if x.2.1 = "@" ++ x.1.1 ∧ x.2.2 = none then some x.1.2 else none) = creds := by
  induction paths generalizing creds with
  | nil =>
    cases creds with
    | nil => rfl
    | cons c cs => simp at h
  | cons p ps ih =>
    cases creds with
    | nil => simp at h
    | cons c cs =>
      simp only [List.length_cons, Nat.add_right_cancel_iff] at h
      simp [List.filterMap_cons, ih cs h]

theorem expectedCredentials_length (config : Config) (total i : Nat) (workspaces : List String) :
    (expectedCredentials config total i workspaces).length = 2 * workspaces.length := by
  induction workspaces generalizing i with
  | nil => rfl
  | cons workspace rest ih =>
    rw [expectedCredentials_cons, List.length_append, ih]
    simp only [List.length_cons, List.length_nil]
    omega

/-- In a run in which nothing fails the creation calls and the created
credentials are those expected for the resolved workspaces. -/
theorem created_all (w : World) (config : Config)
    (h : ∀ e ∈ (setupAzureWorkloadIdentity w config).trace, e.failed = false) :
    ((setupAzureWorkloadIdentity w config).trace.filterMap creationCall).length
        = 2 * (resolveWorkspaces config).length ∧
      createdCredentials (setupAzureWorkloadIdentity w config).trace
        = expectedCredentials config (resolveWorkspaces config).length 0
            (resolveWorkspaces config) := by
  rcases setup_shape w config with
    ⟨np, msg, hinv, hret, htr⟩ |
    ⟨np, cfg, res, nc, nk, rm, msg, hinv, -, hclean, hkinv, -, hrm, -, htr⟩ |
    ⟨np, cfg, res, nc, nk, res2, nr, rm, hinv, hprep, hclean, hkinv, -, hcreated, hrole, hrm,
      hret, htr⟩
  · obtain ⟨e, he, hf, -⟩ := hinv.2.1 rfl
    rw [htr] at h
    rw [h e he] at hf
    cases hf
  · obtain ⟨e, he, hf, -⟩ := hkinv.2.1 rfl
    rw [htr] at h
    rw [h e (by simp [he])] at hf
    cases hf
  · have hrun := hcreated.2.2.2.2 (fun e he => h e (by rw [htr]; simp [he]))
    rw [hprep.1] at hrun
    have hexp : expectedCredentials (withContext config res.SubscriptionID res.TenantID)
        (resolveWorkspaces (withContext config res.SubscriptionID res.TenantID)).length 0
        (resolveWorkspaces (withContext config res.SubscriptionID res.TenantID))
        = expectedCredentials config (resolveWorkspaces config).length 0
            (resolveWorkspaces config) := rfl
    rw [hexp] at hrun
    obtain ⟨paths, hl, hw, hc⟩ := creationRun_documents hrun
    have hsegw := filterMap_segments writtenDocument 7 writtenDocument_stage (by decide)
      hinv.1 (cleanupRun_stage hclean) hkinv.1 (roleRun_stage hrole) hrm
    have hsegc := filterMap_segments creationCall 7 creationCall_stage (by decide)
      hinv.1 (cleanupRun_stage hclean) hkinv.1 (roleRun_stage hrole) hrm
    simp only [Nat.reduceEqDiff, if_false, if_true] at hsegw hsegc
    unfold createdCredentials
    rw [htr, hsegw, hsegc, hw, hc]
    refine ⟨?_, zip_documents paths _ hl⟩
    rw [List.length_map, hl, expectedCredentials_length]

/-! ## Credential names -/

theorem credentialName_eq (total i : Nat) (runPhase : String) :
    credentialName total i runPhase =
      if total = 1 then "terraform-cloud-federated-credential-" ++ runPhase
      else "terraform-cloud-federated-credential-" ++ runPhase ++ "-" ++ toString i := by
  have e : credentialStem ++ "-" = "terraform-cloud-federated-credential-" := by decide
  unfold credentialName
  split
  · rw [e]
  · rw [e]

theorem indexed_name_injective (p q : String) (i j : Nat)
    (hp : p = "plan" ∨ p = "apply") (hq : q = "plan" ∨ q = "apply")
    (h : "terraform-cloud-federated-credential-" ++ p ++ "-" ++ toString i
      = "terraform-cloud-federated-credential-" ++ q ++ "-" ++ toString j) :
    p = q ∧ i = j := by
  have hd := congrArg String.data h
  simp only [String.data_append, List.append_assoc] at hd
  have hd2 := List.append_cancel_left hd
  rcases hp with rfl | rfl <;> rcases hq with rfl | rfl
  · have h3 := List.append_cancel_left (List.append_cancel_left hd2)
    exact ⟨rfl, toString_nat_injective i j (String.ext h3)⟩
  · simp at hd2
  · simp at hd2
  · have h3 := List.append_cancel_left (List.append_cancel_left hd2)
    exact ⟨rfl, toString_nat_injective i j (String.ext h3)⟩

theorem expectedCredentials_names (config : Config) (total i : Nat) (workspaces : List String) :
    (expectedCredentials config total i workspaces).map (fun c => c.name) =
      (List.range' i workspaces.length).flatMap (fun k =>
        ["plan", "apply"].map (fun phase =>
          if total = 1 then "terraform-cloud-federated-credential-" ++ phase
          else "terraform-cloud-federated-credential-" ++ phase ++ "-" ++ toString k)) := by
  induction workspaces generalizing i with
  | nil => rfl
  | cons workspace rest ih =>
    rw [expectedCredentials_cons, List.map_append, ih, List.length_cons, List.range'_succ,
      List.flatMap_cons]
    simp only [List.map_cons, List.map_nil, federatedCred, credentialName_eq]

theorem indexed_names_nodup (total i n : Nat) (hn : total = 1 → n ≤ 1) :
    ((List.range' i n).flatMap (fun k =>
      ["plan", "apply"].map (fun phase =>
        if total = 1 then "terraform-cloud-federated-credential-" ++ phase
        else "terraform-cloud-federated-credential-" ++ phase ++ "-" ++ toString k))).Nodup := by
  by_cases h1 : total = 1
  · have hn1 := hn h1
    simp only [h1, if_true, List.map_cons, List.map_nil]
    rcases n with _ | _ | n
    · simp
    · simp only [Nat.zero_add, List.range'_one, List.flatMap_cons, List.flatMap_nil,
        List.append_nil]
      decide
    · omega
  · simp only [h1, if_false, List.map_cons, List.map_nil]
    rw [List.nodup_flatMap]
    constructor
    · intro k _
      rw [List.nodup_cons]
      refine ⟨?_, by simp⟩
      intro hmem
      rw [List.mem_singleton] at hmem
      have := (indexed_name_injective "plan" "apply" k k (Or.inl rfl) (Or.inr rfl) hmem).1
      exact absurd this (by decide)
    · refine (List.nodup_range' i n).imp ?_
      intro a b hab
      show List.Disjoint _ _
      intro x hx hy
      simp only [List.mem_cons, List.mem_singleton, List.not_mem_nil, or_false] at hx hy
      rcases hx with rfl | rfl <;> rcases hy with hy | hy
      · exact hab (indexed_name_injective _ _ _ _ (Or.inl rfl) (Or.inl rfl) hy).2
      · exact hab (indexed_name_injective _ _ _ _ (Or.inl rfl) (Or.inr rfl) hy).2
      · exact hab (indexed_name_injective _ _ _ _ (Or.inr rfl) (Or.inl rfl) hy).2
      · exact hab (indexed_name_injective _ _ _ _ (Or.inr rfl) (Or.inr rfl) hy).2


/-- C4: in a run in which every external call succeeds, with N the number of
resolved workspaces: exactly 2N federated-credential creation calls are
issued; the created credentials are those of the list positions and the two
run phases, in order; their names are `terraform-cloud-federated-credential-`
and the phase when N = 1, followed otherwise by `-` and the position; and the
names are pairwise distinct. -/
theorem creation_calls_and_names (w : World) (config : Config)
    (h : ∀ e ∈ (setupAzureWorkloadIdentity w config).trace, e.failed = false) :
    ((setupAzureWorkloadIdentity w config).trace.filterMap creationCall).length
        = 2 * (resolveWorkspaces config).length ∧
      createdCredentials (setupAzureWorkloadIdentity w config).trace
        = ((resolveWorkspaces config).enumFrom 0).flatMap (fun iw =>
            ["plan", "apply"].map (fun phase =>
              federatedCred config (resolveWorkspaces config).length iw.1 iw.2 phase)) ∧
      (createdCredentials (setupAzureWorkloadIdentity w config).trace).map (fun c => c.name)
        = (List.range (resolveWorkspaces config).length).flatMap (fun i =>
            ["plan", "apply"].map (fun phase =>
              if (resolveWorkspaces config).length = 1 then
                "terraform-cloud-federated-credential-" ++ phase
              else "terraform-cloud-federated-credential-" ++ phase ++ "-" ++ toString i)) ∧
      ((createdCredentials (setupAzureWorkloadIdentity w config).trace).map
        (fun c => c.name)).Nodup := by
  obtain ⟨h1, h2⟩ := created_all w config h
  have hnames := expectedCredentials_names config (resolveWorkspaces config).length 0
    (resolveWorkspaces config)
  rw [← List.range_eq_range'] at hnames
  refine ⟨h1, h2, ?_, ?_⟩
  · rw [h2, hnames]
  · rw [h2, hnames, List.range_eq_range']
    exact indexed_names_nodup _ _ _ (fun h => le_of_eq h)

set_option maxHeartbeats 4000000 in
/-- C4 at a concrete input: one workspace, two creation calls, the names end
in the phase. -/
theorem creation_calls_and_names_witness :
    (∀ e ∈ (setupAzureWorkloadIdentity calmWorld acmeConfig).trace, e.failed = false) ∧
      ((setupAzureWorkloadIdentity calmWorld acmeConfig).trace.filterMap creationCall).length
          = 2 * (resolveWorkspaces acmeConfig).length ∧
      (createdCredentials (setupAzureWorkloadIdentity calmWorld acmeConfig).trace).map
          (fun c => c.name)
        = ["terraform-cloud-federated-credential-plan",
            "terraform-cloud-federated-credential-apply"] := by
  have h := creation_calls_and_names calmWorld acmeConfig (by decide!)
  refine ⟨by decide!, h.1, ?_⟩
  rw [h.2.2.1]
  decide

/-! ## Credentials per workspace -/

theorem description_injective (w v p q : String)
    (hp : p = "plan" ∨ p = "apply") (hq : q = "plan" ∨ q = "apply")
    (h : "Federated credential for TFC workspace: " ++ w ++ " (" ++ p ++ ")"
      = "Federated credential for TFC workspace: " ++ v ++ " (" ++ q ++ ")") :
    w = v ∧ p = q := by
  have hd := congrArg String.data h
  simp only [String.data_append, List.append_assoc] at hd
  have hd2 := List.append_cancel_left hd
  rcases hp with rfl | rfl <;> rcases hq with rfl | rfl
  · exact ⟨String.ext (List.append_cancel_right hd2), rfl⟩
  · have hr := congrArg List.reverse hd2
    simp at hr
  · have hr := congrArg List.reverse hd2
    simp at hr
  · exact ⟨String.ext (List.append_cancel_right hd2), rfl⟩

theorem boundTo_federatedCred (config : Config) (total i : Nat) (w v p q : String)
    (hp : p = "plan" ∨ p = "apply") (hq : q = "plan" ∨ q = "apply") :
    boundTo config w p (federatedCred config total i v q) = decide (v = w ∧ q = p) := by
  by_cases hvw : v = w ∧ q = p
  · obtain ⟨rfl, rfl⟩ := hvw
    simp [boundTo, federatedCred]
  · have : ¬ ("Federated credential for TFC workspace: " ++ v ++ " (" ++ q ++ ")"
        = "Federated credential for TFC workspace: " ++ w ++ " (" ++ p ++ ")") :=
      fun h => hvw (description_injective v w q p hq hp h)
    simp [boundTo, federatedCred, this, hvw]

theorem expectedCredentials_count (config : Config) (total i : Nat) (workspaces : List String)
    (w p : String) (hp : p = "plan" ∨ p = "apply") :
    (expectedCredentials config total i workspaces).countP (boundTo config w p)
      = workspaces.countP (fun v => v = w) := by
  induction workspaces generalizing i with
  | nil => rfl
  | cons v rest ih =>
    rw [expectedCredentials_cons, List.countP_append, ih, List.countP_cons, List.countP_cons,
      List.countP_cons, List.countP_nil,
      boundTo_federatedCred config total i w v p "plan" hp (Or.inl rfl),
      boundTo_federatedCred config total i w v p "apply" hp (Or.inr rfl)]
    by_cases hv : v = w
    · rcases hp with rfl | rfl <;> simp [hv] <;> omega
    · simp [hv]

theorem countP_eq_one_of_nodup (workspaces : List String) (w : String)
    (hnd : workspaces.Nodup) (hmem : w ∈ workspaces) :
    workspaces.countP (fun v => v = w) = 1 := by
  induction workspaces with
  | nil => cases hmem
  | cons v rest ih =>
    rw [List.nodup_cons] at hnd
    rw [List.countP_cons]
    by_cases hv : v = w
    · subst hv
      have : rest.countP (fun x => x = v) = 0 := by
        rw [List.countP_eq_zero]
        intro x hx
        simp only [decide_eq_true_eq]
        rintro rfl
        exact hnd.1 hx
      simp [this]
    · have hin : w ∈ rest := by
        rcases List.mem_cons.1 hmem with h | h
        · exact absurd h.symm hv
        · exact h
      simp [hv, ih hnd.2 hin]

/-- C5, as the code has it: in a run in which every external call succeeds,
the number of created credentials bound to a workspace name and a run phase is
the number of positions of the resolved workspace list that hold the name; it
is one for a name of a list without repetitions. -/
theorem credentials_per_workspace (w : World) (config : Config) (workspace runPhase : String)
    (h : ∀ e ∈ (setupAzureWorkloadIdentity w config).trace, e.failed = false)
    (hp : runPhase = "plan" ∨ runPhase = "apply") :
    (createdCredentials (setupAzureWorkloadIdentity w config).trace).countP
        (boundTo config workspace runPhase)
      = (resolveWorkspaces config).countP (fun v => v = workspace) ∧
    ((resolveWorkspaces config).Nodup → workspace ∈ resolveWorkspaces config →
      (createdCredentials (setupAzureWorkloadIdentity w config).trace).countP
        (boundTo config workspace runPhase) = 1) := by
  have hc := (created_all w config h).2
  have hcount := expectedCredentials_count config (resolveWorkspaces config).length 0
    (resolveWorkspaces config) workspace runPhase hp
  rw [hc, hcount]
  exact ⟨rfl, fun hnd hmem => countP_eq_one_of_nodup _ _ hnd hmem⟩

set_option maxHeartbeats 4000000 in
/-- C5 at a concrete input: the one workspace `*` of the `acme` configuration
gets one plan credential. -/
theorem credentials_per_workspace_witness :
    (∀ e ∈ (setupAzureWorkloadIdentity calmWorld acmeConfig).trace, e.failed = false) ∧
      (createdCredentials (setupAzureWorkloadIdentity calmWorld acmeConfig).trace).countP
        (boundTo acmeConfig "*" "plan") = 1 :=
  ⟨by decide!,
    (credentials_per_workspace calmWorld acmeConfig "*" "plan" (by decide!) (Or.inl rfl)).2
      (by decide) (by decide)⟩

set_option maxHeartbeats 4000000 in
/-- C5 fails when the workspace list repeats a name: with `prod` listed twice
and every call succeeding, two created credentials are bound to `prod` and the
plan phase. -/
theorem repeated_workspace_two_credentials :
    (∀ e ∈ (setupAzureWorkloadIdentity calmWorld twiceProdConfig).trace, e.failed = false) ∧
      "prod" ∈ resolveWorkspaces twiceProdConfig ∧
      (createdCredentials (setupAzureWorkloadIdentity calmWorld twiceProdConfig).trace).countP
        (boundTo twiceProdConfig "prod" "plan") = 2 := by
  decide!

/-! ## Error handling of the run -/

/-- C9, as the code has it: when one of the two account queries, the
application create call or the service-principal create call fails, the run
returns an error and that call is the last thing the run does. -/
theorem fatal_call_aborts (w : World) (config : Config) (e : Event)
    (he : e ∈ (setupAzureWorkloadIdentity w config).trace)
    (hfat : fatalCall e = true) (hfail : e.failed = true) :
    (∃ msg, (setupAzureWorkloadIdentity w config).ret = .error msg) ∧
      (setupAzureWorkloadIdentity w config).trace.getLast? = some e := by
  have hst := fatalCall_stage e hfat
  rcases setup_shape w config with
    ⟨np, msg, hinv, hret, htr⟩ |
    ⟨np, cfg, res, nc, nk, rm, msg, hinv, -, hclean, hkinv, -, hrm, -, htr⟩ |
    ⟨np, cfg, res, nc, nk, res2, nr, rm, hinv, -, hclean, hkinv, -, -, hrole, hrm, -, htr⟩
  · rw [htr] at he ⊢
    exact ⟨⟨msg, hret⟩, (hinv.2.2 e he hfat hfail).2⟩
  · rw [htr] at he
    simp only [List.mem_append] at he
    rcases he with ((he | he) | he) | he
    · exact absurd (hinv.2.2 e he hfat hfail).1 (by simp)
    · have := cleanupRun_stage hclean e he
      omega
    · have := hkinv.1 e he
      omega
    · have := (removals_stage hrm e he).1
      omega
  · rw [htr] at he
    simp only [List.mem_append] at he
    rcases he with (((he | he) | he) | he) | he
    · exact absurd (hinv.2.2 e he hfat hfail).1 (by simp)
    · have := cleanupRun_stage hclean e he
      omega
    · have := hkinv.1 e he
      omega
    · have := roleRun_stage hrole e he
      omega
    · have := (removals_stage hrm e he).1
      omega

set_option maxHeartbeats 4000000 in
/-- C9 at a concrete input: the subscription query fails, the run stops
there. -/
theorem fatal_call_aborts_witness :
    (Event.az ["account", "show", "--query", "id", "-o", "tsv"] "ERROR" (some "exit status 1")
        ∈ (setupAzureWorkloadIdentity accountDownWorld acmeConfig).trace) ∧
      ((∃ msg, (setupAzureWorkloadIdentity accountDownWorld acmeConfig).ret = .error msg) ∧
        (setupAzureWorkloadIdentity accountDownWorld acmeConfig).trace.getLast? =
          some (Event.az ["account", "show", "--query", "id", "-o", "tsv"] "ERROR"
            (some "exit status 1"))) :=
  ⟨by decide!,
    fatal_call_aborts accountDownWorld acmeConfig _ (by decide!) (by decide) (by decide)⟩

set_option maxHeartbeats 4000000 in
/-- C9 fails for the two list calls: in an environment where the application
list call and the service-principal list call fail and nothing else does, the
run creates the application and the service principal instead, reaches the
role stage and returns the resources. -/
theorem failed_list_call_continues :
    (Event.az ["ad", "app", "list", "--display-name", "terraform-cloud-acme", "--query",
        "[0].appId", "-o", "tsv"] "ERROR" (some "exit status 1")
        ∈ (setupAzureWorkloadIdentity listDownWorld acmeConfig).trace) ∧
      (Event.az ["ad", "sp", "list", "--filter", "appId eq \'id\'", "--query", "[0].id",
        "-o", "tsv"] "ERROR" (some "exit status 1")
        ∈ (setupAzureWorkloadIdentity listDownWorld acmeConfig).trace) ∧
      (setupAzureWorkloadIdentity listDownWorld acmeConfig).ret.toOption =
        some { ApplicationID := "id", SubscriptionID := "id", TenantID := "id",
               Subject := "organization:acme:workspace:*:run_phase:plan" } ∧
      (∃ e ∈ (setupAzureWorkloadIdentity listDownWorld acmeConfig).trace, e.stage = 8) := by
  decide!

/-! ## Names of created credentials and the cleanup of a later run -/

theorem credentialName_has_stem (total i : Nat) (runPhase : String) :
    HasPrefix (credentialName total i runPhase) credentialStem = true := by
  unfold HasPrefix credentialName
  rw [List.isPrefixOf_iff_prefix]
  split
  · simp only [String.data_append, List.append_assoc]
    exact List.prefix_append _ _
  · simp only [String.data_append, List.append_assoc]
    exact List.prefix_append _ _

theorem ownDocument_of_stage {e : Event} (h : e.stage ≠ 7) : ownDocument e := by
  intro path cred err he
  subst he
  exact absurd rfl h

theorem emits_bind {α β : Type} {m : Proc α} {f : α → Proc β} {P : Event → Prop}
    (h1 : Grows m (fun n _ => ∀ e ∈ n, P e))
    (h2 : ∀ a, Grows (f a) (fun n _ => ∀ e ∈ n, P e)) :
    Grows (m >>= f) (fun n _ => ∀ e ∈ n, P e) := by
  refine grows_bind h1 h2 (fun _ _ h => h) (fun n1 _ n2 _ q1 q2 e he => ?_)
  rcases List.mem_append.1 he with h | h
  · exact q1 e h
  · exact q2 e h

theorem emits_of_keeps {α : Type} {m : Proc α} {P Q : Event → Prop} (h : Keeps P m)
    (hp : ∀ e, P e → Q e) : Grows m (fun n _ => ∀ e ∈ n, Q e) :=
  grows_mono h (fun _ _ q e he => hp e (q.1 e he))

theorem createCredential_writes (config : Config) (total i : Nat) (workspace runPhase : String)
    (resources : AzureResources) :
    Grows (createCredential config total i workspace runPhase resources)
      (fun new _ => ∀ e ∈ new, ownDocument e) := by
  intro w tr
  unfold createCredential
  simp only [bind_run, createTemp]
  generalize w.createTemp tr = t
  rcases t with ⟨path, _ | e1⟩ <;> simp only [Proc.fail]
  · simp only [bind_run, writeTemp]
    generalize w.write _ _ _ = we
    rcases we with _ | e2 <;> simp only [Proc.fail]
    · simp only [bind_run, runAzCommand]
      generalize w.az _ _ = r
      rcases r with ⟨out, _ | e3⟩ <;> simp only [azResult, Proc.fail]
      · split <;> simp only [pure_run, List.append_assoc, List.singleton_append] <;>
          refine ⟨_, rfl, ?_⟩ <;> intro e he p c er heq <;> subst heq <;> simp at he <;>
          (rcases he with ⟨-, rfl, -⟩; exact credentialName_has_stem _ _ _)
      · simp only [List.append_assoc, List.singleton_append]
        refine ⟨_, rfl, ?_⟩
        intro e he p c er heq
        subst heq
        simp at he
        rcases he with ⟨-, rfl, -⟩
        exact credentialName_has_stem _ _ _
    · simp only [List.append_assoc, List.singleton_append]
      refine ⟨_, rfl, ?_⟩
      intro e he p c er heq
      subst heq
      simp at he
      rcases he with ⟨-, rfl, -⟩
      exact credentialName_has_stem _ _ _
  · refine ⟨_, rfl, ?_⟩
    intro e he p c er heq
    subst heq
    simp at he

theorem createPhases_writes (config : Config) (total i : Nat) (workspace : String)
    (phases : List String) (resources : AzureResources) :
    Grows (createPhases config total i workspace phases resources)
      (fun new _ => ∀ e ∈ new, ownDocument e) := by
  induction phases generalizing resources with
  | nil =>
    refine grows_mono (pure_grows resources) ?_
    rintro n r ⟨rfl, -⟩ e he
    cases he
  | cons runPhase rest ih =>
    unfold createPhases
    exact emits_bind (createCredential_writes _ _ _ _ _ _) fun _ => ih _

theorem createWorkspaces_writes (config : Config) (total i : Nat) (workspaces : List String)
    (resources : AzureResources) :
    Grows (createWorkspaces config total i workspaces resources)
      (fun new _ => ∀ e ∈ new, ownDocument e) := by
  induction workspaces generalizing i resources with
  | nil =>
    refine grows_mono (pure_grows resources) ?_
    rintro n r ⟨rfl, -⟩ e he
    cases he
  | cons workspace rest ih =>
    unfold createWorkspaces
    exact emits_bind (createPhases_writes _ _ _ _ _ _) fun _ => ih _ _

/-- In every run, whatever fails, each credential document handed over carries
a name that starts with the stem. -/
theorem setup_writes (w : World) (config : Config) :
    ∀ e ∈ (setupAzureWorkloadIdentity w config).trace, ownDocument e := by
  have hsteps : Grows (setupSteps config) (fun n _ => ∀ e ∈ n, ownDocument e) := by
    rw [setupSteps_eq]
    refine emits_bind (emits_of_keeps (prepare_keeps config)
      (fun e h => ownDocument_of_stage (by omega))) fun p => ?_
    unfold finish
    refine emits_bind (emits_of_keeps (cleanupCredentials_keeps _)
      (fun e h => ownDocument_of_stage (by omega))) fun _ => ?_
    refine emits_bind (createWorkspaces_writes _ _ _ _ _) fun res => ?_
    refine emits_bind (emits_of_keeps (assignRoles_keeps _ _ _)
      (fun e h => ownDocument_of_stage (by omega))) fun _ => ?_
    refine grows_mono (pure_grows res) ?_
    rintro n r ⟨rfl, -⟩ e he
    cases he
  obtain ⟨new, hnew, hq⟩ := hsteps w []
  intro e he
  unfold setupAzureWorkloadIdentity at he
  simp only [hnew, List.nil_append, List.mem_append, List.mem_map] at he
  rcases he with he | ⟨path, -, rfl⟩
  · exact hq e he
  · exact ownDocument_of_stage (by simp [Event.stage])

theorem created_written {trace : List Event} {cred : FederatedCred}
    (h : cred ∈ createdCredentials trace) :
    ∃ path, Event.write path cred none ∈ trace := by
  unfold createdCredentials at h
  obtain ⟨x, hx, hsome⟩ := List.mem_filterMap.1 h
  have hc : x.1.2 = cred := by
    split at hsome
    · exact Option.some.inj hsome
    · cases hsome
  obtain ⟨⟨path, c⟩, q⟩ := x
  have hmem := (List.of_mem_zip hx).1
  obtain ⟨e, he, hw⟩ := List.mem_filterMap.1 hmem
  simp only at hc
  subst hc
  refine ⟨path, ?_⟩
  cases e with
  | write p c2 err =>
    cases err with
    | none =>
      simp only [writtenDocument, Option.some.injEq, Prod.mk.injEq] at hw
      obtain ⟨rfl, rfl⟩ := hw
      exact he
    | some _ => simp [writtenDocument] at hw
  | _ => simp [writtenDocument] at hw

/-- After a successful listing the delete calls of a run are, in order, the
lines of the trimmed listing that carry the stem. -/
theorem run_deletes (w : World) (config : Config) (a out : String)
    (hmem : Event.az ["ad", "app", "federated-credential", "list", "--id", a, "--query",
      "[].name", "-o", "tsv"] out none ∈ (setupAzureWorkloadIdentity w config).trace) :
    (setupAzureWorkloadIdentity w config).trace.filterMap deletedCredential =
      (SplitLines (TrimSpace out)).filter (fun n => HasPrefix n credentialStem) := by
  have key : ∀ (np nc nk nr rm : List Event) (a0 : String),
      (setupAzureWorkloadIdentity w config).trace = np ++ nc ++ nk ++ nr ++ rm →
      (∀ e ∈ np, e.stage ≤ 5) → CleanupRun a0 nc → (∀ e ∈ nk, e.stage = 7) →
      (∀ e ∈ nr, e.stage = 8) → Removals rm →
      (setupAzureWorkloadIdentity w config).trace.filterMap deletedCredential =
        (SplitLines (TrimSpace out)).filter (fun n => HasPrefix n credentialStem) := by
    intro np nc nk nr rm a0 htr h1 hclean h3 h4 h5
    have hseg := filterMap_segments deletedCredential 6 deletedCredential_stage (by decide)
      h1 (cleanupRun_stage hclean) h3 h4 h5
    simp only [if_true] at hseg
    rw [htr] at hmem
    have hin := (mem_segments hmem h1 (cleanupRun_stage hclean) h3 h4 h5).1
      (by simp [Event.stage, azStage])
    rw [htr, hseg]
    exact (cleanupRun_deletes hclean).2 a out hin
  rcases setup_shape w config with
    ⟨np, msg, hinv, -, htr⟩ |
    ⟨np, cfg, res, nc, nk, rm, msg, hinv, -, hclean, hkinv, -, hrm, -, htr⟩ |
    ⟨np, cfg, res, nc, nk, res2, nr, rm, hinv, -, hclean, hkinv, -, -, hrole, hrm, -, htr⟩
  · rw [htr] at hmem
    have := hinv.1 _ hmem
    simp [Event.stage, azStage] at this
  · exact key np nc nk [] rm res.ApplicationID (by simp [htr]) hinv.1 hclean hkinv.1
      (fun e (he : e ∈ ([] : List Event)) => absurd he (List.not_mem_nil e)) hrm
  · exact key np nc nk nr rm res.ApplicationID htr hinv.1 hclean hkinv.1
      (roleRun_stage hrole) hrm

/-- C11: the name the creation stage computes for any number of workspaces,
any index and any run phase starts with `terraform-cloud-federated-credential`,
the stem the cleanup stage tests; so does the name of every credential a run
creates, whatever fails in that run; and when a later run lists such a name
(a successful listing with the name on a line of the trimmed output), its
cleanup stage issues a delete call for it. -/
theorem created_names_are_cleaned (w : World) (config : Config) :
    (∀ (total i : Nat) (runPhase : String),
      HasPrefix (credentialName total i runPhase) "terraform-cloud-federated-credential"
        = true) ∧
    (∀ cred ∈ createdCredentials (setupAzureWorkloadIdentity w config).trace,
      HasPrefix cred.name "terraform-cloud-federated-credential" = true) ∧
    (∀ (total i : Nat) (runPhase : String) (later : World) (config2 : Config) (a out : String),
      Event.az ["ad", "app", "federated-credential", "list", "--id", a, "--query",
        "[].name", "-o", "tsv"] out none ∈ (setupAzureWorkloadIdentity later config2).trace →
      credentialName total i runPhase ∈ SplitLines (TrimSpace out) →
      credentialName total i runPhase
        ∈ (setupAzureWorkloadIdentity later config2).trace.filterMap deletedCredential) ∧
    (∀ cred ∈ createdCredentials (setupAzureWorkloadIdentity w config).trace,
      ∀ (later : World) (config2 : Config) (a out : String),
      Event.az ["ad", "app", "federated-credential", "list", "--id", a, "--query",
        "[].name", "-o", "tsv"] out none ∈ (setupAzureWorkloadIdentity later config2).trace →
      cred.name ∈ SplitLines (TrimSpace out) →
      cred.name ∈ (setupAzureWorkloadIdentity later config2).trace.filterMap
        deletedCredential) := by
  have hcreated : ∀ cred ∈ createdCredentials (setupAzureWorkloadIdentity w config).trace,
      HasPrefix cred.name credentialStem = true := by
    intro cred hc
    obtain ⟨path, hw⟩ := created_written hc
    exact setup_writes w config _ hw path cred none rfl
  refine ⟨credentialName_has_stem, hcreated, ?_, ?_⟩
  · intro total i runPhase later config2 a out hlist hline
    rw [run_deletes later config2 a out hlist]
    exact List.mem_filter.2 ⟨hline, by simpa using credentialName_has_stem total i runPhase⟩
  · intro cred hc later config2 a out hlist hline
    rw [run_deletes later config2 a out hlist]
    exact List.mem_filter.2 ⟨hline, by simpa using hcreated cred hc⟩

set_option maxHeartbeats 4000000 in
/-- C11 at a concrete input: the plan credential created by a run for `acme`
is listed in a later run, next to a foreign credential, and that run deletes
it. -/
theorem created_names_are_cleaned_witness :
    planCredential ∈ createdCredentials (setupAzureWorkloadIdentity calmWorld acmeConfig).trace ∧
      (Event.az ["ad", "app", "federated-credential", "list", "--id", "id", "--query",
        "[].name", "-o", "tsv"] "terraform-cloud-federated-credential-plan\nmanual-credential\n"
        none ∈ (setupAzureWorkloadIdentity listingWorld acmeConfig).trace) ∧
      planCredential.name ∈
        SplitLines (TrimSpace "terraform-cloud-federated-credential-plan\nmanual-credential\n") ∧
      planCredential.name ∈
        (setupAzureWorkloadIdentity listingWorld acmeConfig).trace.filterMap
          deletedCredential :=
  ⟨by decide!, by decide!, by decide,
    (created_names_are_cleaned calmWorld acmeConfig).2.2.2 planCredential (by decide!)
      listingWorld acmeConfig "id"
      "terraform-cloud-federated-credential-plan\nmanual-credential\n" (by decide!)
      (by decide)⟩

/-! ## Character-level facts about strings -/

theorem colon_split_unique {a b x y : List Char} (ha : ':' ∉ a) (hb : ':' ∉ b)
    (h : a ++ ':' :: x = b ++ ':' :: y) : a = b ∧ x = y := by
  induction a generalizing b with
  | nil =>
    cases b with
    | nil => simpa using h
    | cons d b =>
      simp only [List.nil_append, List.cons_append, List.cons.injEq] at h
      exact absurd (h.1 ▸ List.mem_cons_self _ _) hb
  | cons c a ih =>
    cases b with
    | nil =>
      simp only [List.nil_append, List.cons_append, List.cons.injEq] at h
      exact absurd (h.1 ▸ List.mem_cons_self _ _) ha
    | cons d b =>
      simp only [List.cons_append, List.cons.injEq] at h
      have ha2 : ':' ∉ a := fun hm => ha (List.mem_cons_of_mem _ hm)
      have hb2 : ':' ∉ b := fun hm => hb (List.mem_cons_of_mem _ hm)
      obtain ⟨h1, h2⟩ := ih ha2 hb2 h.2
      exact ⟨by rw [h.1, h1], h2⟩

theorem joinColon_injective :
    ∀ (l1 l2 : List (List Char)), l1 ≠ [] → l2 ≠ [] →
      (∀ a ∈ l1, ':' ∉ a) → (∀ a ∈ l2, ':' ∉ a) → joinColon l1 = joinColon l2 → l1 = l2
  | [], _, h, _, _, _, _ => absurd rfl h
  | _ :: _, [], _, h, _, _, _ => absurd rfl h
  | [a], [b], _, _, _, _, h => by simpa [joinColon] using h
  | [a], b :: b2 :: r2, _, _, h1, _, h => by
    simp only [joinColon] at h
    have : ':' ∈ a := by rw [h]; simp
    exact absurd this (h1 a (List.mem_cons_self _ _))
  | a :: a2 :: r1, [b], _, _, _, h2, h => by
    simp only [joinColon] at h
    have : ':' ∈ b := by rw [← h]; simp
    exact absurd this (h2 b (List.mem_cons_self _ _))
  | a :: a2 :: r1, b :: b2 :: r2, _, _, h1, h2, h => by
    simp only [joinColon] at h
    obtain ⟨hab, hrest⟩ := colon_split_unique (h1 a (List.mem_cons_self _ _))
      (h2 b (List.mem_cons_self _ _)) h
    have ih := joinColon_injective (a2 :: r1) (b2 :: r2) (by simp) (by simp)
      (fun x hx => h1 x (List.mem_cons_of_mem _ hx))
      (fun x hx => h2 x (List.mem_cons_of_mem _ hx)) hrest
    rw [hab, ih]

theorem constructSubjectClaim_data (o p w r : String) :
    (constructSubjectClaim o p w r).data = joinColon (claimFields o p w r) := by
  have e1 : ("organization:" : String).data = "organization".data ++ [':'] := by decide
  have e2 : (":project:" : String).data = ':' :: ("project".data ++ [':']) := by decide
  have e3 : (":workspace:" : String).data = ':' :: ("workspace".data ++ [':']) := by decide
  have e4 : (":run_phase:" : String).data = ':' :: ("run_phase".data ++ [':']) := by decide
  have e5 : (":workspace:*:run_phase:" : String).data
      = ':' :: ("workspace".data ++ ':' :: ("*".data ++ ':' :: ("run_phase".data ++ [':']))) := by
    decide
  unfold constructSubjectClaim claimFields workspaceOrAll
  by_cases hp : p = "" <;> by_cases hw : w = "" <;> by_cases hs : w = "*" <;>
    simp only [hp, hw, hs, ne_eq, not_true_eq_false, not_false_eq_true, if_true, if_false,
      or_true, true_or, or_self, String.data_append, joinColon, e1, e2, e3, e4, e5,
      List.append_assoc, List.cons_append, List.nil_append, List.singleton_append] <;>
    rfl

/-! ## The subject claim -/

/-- C1: `constructSubjectClaim` inserts its four components verbatim into the
project template when the project is non-empty and into the organization
template when it is empty; the workspace component is `*` when the workspace
is empty or `*`, and the workspace itself otherwise. -/
theorem constructSubjectClaim_spec (organization project workspace runPhase : String) :
    constructSubjectClaim organization project workspace runPhase =
      if project ≠ "" then
        "organization:" ++ organization ++ ":project:" ++ project ++ ":workspace:" ++
          (if workspace = "" ∨ workspace = "*" then "*" else workspace) ++
          ":run_phase:" ++ runPhase
      else
        "organization:" ++ organization ++ ":workspace:" ++
          (if workspace = "" ∨ workspace = "*" then "*" else workspace) ++
          ":run_phase:" ++ runPhase := by
  have e : ∀ a : String, a ++ ":workspace:*:run_phase:" = a ++ ":workspace:" ++ "*" ++ ":run_phase:" := by
    intro a
    rw [String.append_assoc, String.append_assoc]
    rfl
  unfold constructSubjectClaim
  by_cases hp : project = "" <;> by_cases hw : workspace = "" ∨ workspace = "*" <;>
    simp only [hp, hw, ne_eq, not_true_eq_false, not_false_eq_true, if_true, if_false, e]

/-- C10: on components without a colon `constructSubjectClaim` is injective up
to the wildcard: equal claims have equal organization, project and run phase,
and workspaces that are equal once the empty name is replaced by `*`. -/
theorem constructSubjectClaim_injective
    (org1 proj1 ws1 phase1 org2 proj2 ws2 phase2 : String)
    (h1 : ':' ∉ org1.data ∧ ':' ∉ proj1.data ∧ ':' ∉ ws1.data ∧ ':' ∉ phase1.data)
    (h2 : ':' ∉ org2.data ∧ ':' ∉ proj2.data ∧ ':' ∉ ws2.data ∧ ':' ∉ phase2.data)
    (h : constructSubjectClaim org1 proj1 ws1 phase1
      = constructSubjectClaim org2 proj2 ws2 phase2) :
    org1 = org2 ∧ proj1 = proj2 ∧ phase1 = phase2 ∧
      (if ws1 = "" then "*" else ws1) = (if ws2 = "" then "*" else ws2) := by
  have hd := congrArg String.data h
  rw [constructSubjectClaim_data, constructSubjectClaim_data] at hd
  have hw1 : ':' ∉ (workspaceOrAll ws1).data := by
    unfold workspaceOrAll; split
    · decide
    · exact h1.2.2.1
  have hw2 : ':' ∉ (workspaceOrAll ws2).data := by
    unfold workspaceOrAll; split
    · decide
    · exact h2.2.2.1
  have hl1 : ':' ∉ "organization".data := by decide
  have hl2 : ':' ∉ "project".data := by decide
  have hl3 : ':' ∉ "workspace".data := by decide
  have hl4 : ':' ∉ "run_phase".data := by decide
  obtain ⟨ho1, hp1, -, hr1⟩ := h1
  obtain ⟨ho2, hp2, -, hr2⟩ := h2
  have hf1 : ∀ a ∈ claimFields org1 proj1 ws1 phase1, ':' ∉ a := by
    intro a ha
    unfold claimFields at ha
    split at ha <;>
      simp only [List.mem_cons, List.mem_singleton, List.not_mem_nil, or_false] at ha <;>
      rcases ha with rfl | rfl | rfl | rfl | rfl | rfl | rfl | rfl <;> assumption
  have hf2 : ∀ a ∈ claimFields org2 proj2 ws2 phase2, ':' ∉ a := by
    intro a ha
    unfold claimFields at ha
    split at ha <;>
      simp only [List.mem_cons, List.mem_singleton, List.not_mem_nil, or_false] at ha <;>
      rcases ha with rfl | rfl | rfl | rfl | rfl | rfl | rfl | rfl <;> assumption
  have hne1 : claimFields org1 proj1 ws1 phase1 ≠ [] := by
    unfold claimFields; split <;> simp
  have hne2 : claimFields org2 proj2 ws2 phase2 ≠ [] := by
    unfold claimFields; split <;> simp
  have hfields := joinColon_injective _ _ hne1 hne2 hf1 hf2 hd
  unfold claimFields at hfields
  have key : ∀ a b : String, a.data = b.data → a = b := fun a b hab => String.ext hab
  by_cases hq1 : proj1 = "" <;> by_cases hq2 : proj2 = "" <;>
    simp only [hq1, hq2, ne_eq, not_true_eq_false, not_false_eq_true, if_true, if_false,
      List.cons.injEq, and_true, true_and] at hfields
  · exact ⟨key _ _ hfields.1, by rw [hq1, hq2], key _ _ hfields.2.2, key _ _ hfields.2.1⟩
  · exact absurd hfields.2.1 (by decide)
  · exact absurd hfields.2.1 (by decide)
  · exact ⟨key _ _ hfields.1, key _ _ hfields.2.1, key _ _ hfields.2.2.2,
      key _ _ hfields.2.2.1⟩

/-- C10 at a concrete input: the empty workspace and the wildcard give the same
organization-level claim. -/
theorem constructSubjectClaim_injective_witness :
    constructSubjectClaim "acme" "" "" "plan" = constructSubjectClaim "acme" "" "*" "plan" ∧
      ("acme" = "acme" ∧ ("" : String) = "" ∧ "plan" = "plan" ∧
        (if ("" : String) = "" then "*" else "") = (if ("*" : String) = "" then "*" else "*")) :=
  ⟨by decide,
    constructSubjectClaim_injective "acme" "" "" "plan" "acme" "" "*" "plan"
      (by decide) (by decide) (by decide)⟩

/-! ## Validation -/

/-- C2: `validateConfig` returns an error exactly when the organization is the
empty string; two configurations with the same organization are both accepted
or both rejected, whatever their other fields. -/
theorem validateConfig_error_iff (config : Config) :
    ((validateConfig config).2.isSome ↔ config.TerraformCloud.Organization = "") ∧
      ∀ other : Config,
        other.TerraformCloud.Organization = config.TerraformCloud.Organization →
          ((validateConfig other).2.isSome ↔ (validateConfig config).2.isSome) := by
  have h : ∀ c : Config, (validateConfig c).2.isSome ↔ c.TerraformCloud.Organization = "" := by
    intro c
    unfold validateConfig
    by_cases ho : c.TerraformCloud.Organization = "" <;> simp [ho]
  refine ⟨h config, fun other ho => ?_⟩
  rw [h other, h config, ho]

/-- C2 at a concrete input: the validated and the bare configuration of `acme`
name the same organization and are both accepted. -/
theorem validateConfig_error_iff_witness :
    acmeConfig.TerraformCloud.Organization = minimalConfig.TerraformCloud.Organization ∧
      ((validateConfig acmeConfig).2.isSome ↔ (validateConfig minimalConfig).2.isSome) :=
  ⟨by decide, (validateConfig_error_iff minimalConfig).2 acmeConfig (by decide)⟩

/-- C3: for a non-empty organization `validateConfig` succeeds and changes
only empty fields: workspace to `*`, audience to the token exchange audience,
application name to `terraform-cloud-` and the organization, role to
`Contributor` when there is no roles list; the resulting workspace and
audience are not empty. -/
theorem validateConfig_defaults (config : Config)
    (horg : config.TerraformCloud.Organization ≠ "") :
    (validateConfig config).2 = none ∧
    (validateConfig config).1 =
      { TerraformCloud :=
          { Organization := config.TerraformCloud.Organization
            Workspace :=
              if config.TerraformCloud.Workspace = "" then "*"
              else config.TerraformCloud.Workspace
            Workspaces := config.TerraformCloud.Workspaces
            Project := config.TerraformCloud.Project }
        Azure :=
          { SubscriptionID := config.Azure.SubscriptionID
            TenantID := config.Azure.TenantID
            Role :=
              if config.Azure.Role = "" ∧ config.Azure.Roles = [] then "Contributor"
              else config.Azure.Role
            Scope := config.Azure.Scope
            Roles := config.Azure.Roles }
        Application :=
          { Name :=
              if config.Application.Name = "" then
                "terraform-cloud-" ++ config.TerraformCloud.Organization
              else config.Application.Name
            Audience :=
              if config.Application.Audience = "" then "api://AzureADTokenExchange"
              else config.Application.Audience } } ∧
    (validateConfig config).1.TerraformCloud.Workspace ≠ "" ∧
    (validateConfig config).1.Application.Audience ≠ "" := by
  obtain ⟨⟨org, ws, wss, proj⟩, ⟨sub, ten, role, scope, roles⟩, ⟨name, aud⟩⟩ := config
  simp only at horg
  unfold validateConfig
  simp only [horg, if_false, List.length_eq_zero]
  by_cases h1 : ws = "" <;> by_cases h2 : aud = "" <;> by_cases h3 : name = "" <;>
    by_cases h4 : role = "" <;> by_cases h5 : roles = [] <;>
    simp [h1, h2, h3, h4, h5]

/-- C3 at a concrete input: the organization `acme` and nothing else. -/
theorem validateConfig_defaults_witness :
    minimalConfig.TerraformCloud.Organization ≠ "" ∧
      (validateConfig minimalConfig).1.TerraformCloud.Workspace = "*" ∧
      (validateConfig minimalConfig).1.Application.Audience = "api://AzureADTokenExchange" ∧
      (validateConfig minimalConfig).1.Application.Name = "terraform-cloud-acme" ∧
      (validateConfig minimalConfig).1.Azure.Role = "Contributor" :=
  ⟨by decide, by
    rw [(validateConfig_defaults minimalConfig (by decide)).2.1]
    decide⟩

end WorkloadIdentity
